import Mathlib

set_option maxHeartbeats 1000000
set_option maxRecDepth 10000

namespace Sudoku

/-- SolveState from src/main.rs: the result reported by the backtracking solver. -/
inductive SolveState where
  | Solved
  | UnSolved
deriving DecidableEq, Repr

/-- SudokuGrid from src/grid.rs: a flat vector of tiles (0 denotes an empty cell)
together with the cached `cell_width` and `row_width` fields.  Tile values are u32 in
the source; they are modelled as Nat (the program only compares them and uses them as
bit indices, so no u32 value arithmetic can overflow). -/
structure SudokuGrid where
  tiles : List Nat
  cell_width : Nat
  row_width : Nat
deriving DecidableEq, Repr

/-- Iterator SudokuGrid::iter: all tiles in linear storage order. -/
def iter (g : SudokuGrid) : List Nat := g.tiles

/-- Value of tile `p` of `g`, i.e. the read `sudoku[p]` through `impl Index<usize>`
(0 is returned for an out-of-range index; the source panics there, and all uses in
the claims are in range). -/
def val (g : SudokuGrid) (p : Nat) : Nat := g.tiles.getD p 0

/-- The write `sudoku[i] = v` through `impl IndexMut<usize>` (no-op out of range;
the source panics there, and all uses in the claims are in range). -/
def setTile (g : SudokuGrid) (i v : Nat) : SudokuGrid :=
  { g with tiles := g.tiles.set i v }

/-- Iterator SudokuGrid::iter_row: the slice `tiles[start..start + row_width]` with
`start = row * row_width`.  Models the in-bounds case; the source panics when
`row ≥ row_width`. -/
def iter_row (g : SudokuGrid) (row : Nat) : List Nat :=
  (g.tiles.drop (row * g.row_width)).take g.row_width

/-- Worker for Rust's `Iterator::step_by(k)`: the counter argument is how many
elements remain to be skipped before the next element is yielded. -/
def stepByGo {α : Type} (k : Nat) : List α → Nat → List α
  | [], _ => []
  | x :: xs, 0 => x :: stepByGo k xs (k - 1)
  | _ :: xs, c + 1 => stepByGo k xs c

/-- Rust's `Iterator::step_by(k)` on a finite sequence: yields the elements at
positions 0, k, 2k, ….  (Rust panics for k = 0; every use below has k ≥ 1.) -/
def stepBy {α : Type} (k : Nat) (l : List α) : List α := stepByGo k l 0

/-- Iterator SudokuGrid::iter_col: `tiles[col..].iter().step_by(row_width)`.
Models the in-bounds case; the source panics when `col ≥ row_width`. -/
def iter_col (g : SudokuGrid) (col : Nat) : List Nat :=
  stepBy g.row_width (g.tiles.drop col)

/-- Worker for Rust's `slice::chunks(k)`: the fuel is an upper bound on the number
of remaining elements (the caller passes the list length, which always suffices for
k ≥ 1). -/
def chunksGo {α : Type} (k : Nat) : Nat → List α → List (List α)
  | _, [] => []
  | 0, _ :: _ => []
  | fuel + 1, x :: xs => ((x :: xs).take k) :: chunksGo k fuel ((x :: xs).drop k)

/-- Rust's `slice::chunks(k)`: consecutive chunks of `k` elements, the last chunk
possibly shorter.  (Rust panics for k = 0; every use below has k ≥ 1.) -/
def chunks {α : Type} (k : Nat) (l : List α) : List (List α) :=
  chunksGo k l.length l

/-- Iterator SudokuGrid::iter_cell: the box (sub-square) view built in the source as
`tiles.chunks(cell_width).skip(chunks_to_skip).step_by(cell_width).take(cell_width).flatten()`
with `chunks_to_skip = (row / cell_width) * row_width + col / cell_width`.
Models the in-bounds case; the source panics when `row ≥ row_width` or
`col ≥ row_width`. -/
def iter_cell (g : SudokuGrid) (row col : Nat) : List Nat :=
  let chunks_to_skip := (row / g.cell_width) * g.row_width + col / g.cell_width
  (((chunks g.cell_width g.tiles).drop chunks_to_skip
      |> stepBy g.cell_width).take g.cell_width).flatten

/-- The u32 mask 0xFFFFFFFF. -/
def mask32 : Nat := 2 ^ 32 - 1

/-- BitManip::set_bit for u32 from src/bitmanip.rs: `*self |= 1 << n`.  A u32 shift
masks its shift amount modulo 32 when overflow checks are off (with checks on, the
source panics for n ≥ 32); all values of an in-range standard puzzle are below 32,
where the two behaviours agree with the plain shift. -/
def set_bit (b n : Nat) : Nat := b ||| (1 <<< (n % 32))

/-- BitManip::test_bit for u32 from src/bitmanip.rs:
`(self & (1 << n)) == (1 << n)`, with the same masked-shift semantics. -/
def test_bit (b n : Nat) : Bool := (b &&& (1 <<< (n % 32))) == (1 <<< (n % 32))

/-- Function `possible` from src/main.rs: builds the exclusion mask `bad` by setting
the bit of every value seen in the tile's row, column and box views, and returns the
u32 complement `!bad` (modelled as xor with the 32-bit mask). -/
def possible (g : SudokuGrid) (tileno : Nat) : Nat :=
  let row := tileno / g.row_width
  let col := tileno % g.row_width
  let bad1 := (iter_row g row).foldl set_bit 0
  let bad2 := (iter_col g col).foldl set_bit bad1
  let bad3 := (iter_cell g row col).foldl set_bit bad2
  bad3 ^^^ mask32

/-- The `next_tile` computation of `solve_rec`:
`sudoku.iter().skip(tileno + 1).position(|t| *t == 0).map(|pos| pos + tileno + 1)`. -/
def next_tile (g : SudokuGrid) (tileno : Nat) : Option Nat :=
  ((g.tiles.drop (tileno + 1)).findIdx? (fun t => t == 0)).map (fun pos => pos + tileno + 1)

/-- The candidate loop of `solve_rec`: for each num in the (already filtered) list,
write it at `tileno`; if there is a next empty tile recurse there (via `recur`),
propagating Solved; otherwise report Solved at once.  When the list is exhausted the
tile is reset to 0 and UnSolved is reported.  `recur` is the recursive call of
`solve_rec` at one less fuel; a `none` result signals fuel exhaustion. -/
def tryNums (recur : SudokuGrid → Nat → Option (SolveState × SudokuGrid))
    (g : SudokuGrid) (tileno : Nat) (next : Option Nat) :
    List Nat → Option (SolveState × SudokuGrid)
  | [] => some (.UnSolved, setTile g tileno 0)
  | num :: rest =>
    let g1 := setTile g tileno num
    match next with
    | none => some (.Solved, g1)
    | some nextno =>
      match recur g1 nextno with
      | none => none
      | some (.Solved, g2) => some (.Solved, g2)
      | some (.UnSolved, g2) => tryNums recur g2 tileno next rest

/-- Function `solve_rec` from src/main.rs, with an explicit fuel bounding the
recursion depth (the Rust recursion always terminates because each recursive call
moves to a strictly later tile index; `solve_rec_isSome` below proves that a fuel of
`tiles.length + 1` never runs out, so the fuel is an artifact of the embedding, not
a semantic change).  The candidate list is
`(1..=row_width).filter(|d| tries.test_bit(d))`. -/
def solve_rec : Nat → SudokuGrid → Nat → Option (SolveState × SudokuGrid)
  | 0, _, _ => none
  | fuel + 1, g, tileno =>
    let tries := possible g tileno
    tryNums (solve_rec fuel) g tileno (next_tile g tileno)
      ((List.range' 1 g.row_width).filter (fun d => test_bit tries d))

/-- Function `solve` from src/main.rs:
`if let Some(&first_zero) = sudoku.iter().find(|tile| **tile == 0) { solve_rec(sudoku, first_zero as usize) } else { Solved }`.
Note that `find` yields the first matching VALUE (which is 0), not its position, and
that value is then used as the tile index — reproduced faithfully here.  The result
is the reported state together with the final grid (the Rust function mutates the
grid in place). -/
def solve (g : SudokuGrid) : SolveState × SudokuGrid :=
  match g.tiles.find? (fun t => t == 0) with
  | some first_zero =>
      (solve_rec (g.tiles.length + 1) g first_zero).getD (.UnSolved, g)
  | none => (.Solved, g)

/-- Error type SudokuParseError from src/grid.rs (the InvalidDigit variant only
arises during string parsing, which is outside the modelled construction path). -/
inductive SudokuParseError where
  | NonSquare
  | DigitOutOfRange
deriving DecidableEq, Repr

/-- Integer fourth root: models `(n as f64).powf(0.25) as usize` from the
`TryFrom<Vec<u32>>` impl in src/grid.rs.  For every length that fits in a vector of
u32 (far below 2^53, where f64 is exact) the truncated f64 fourth root equals the
integer fourth root, which is `Nat.sqrt (Nat.sqrt n)`. -/
def fourth_root (n : Nat) : Nat := Nat.sqrt (Nat.sqrt n)

/-- Constructor `impl TryFrom<Vec<u32>> for SudokuGrid` from src/grid.rs:
computes `cell_width` as the truncated fourth root of the length and
`row_width = cell_width²`, then rejects with NonSquare when `cell_width⁴ != len`,
then with DigitOutOfRange when some value exceeds `row_width`, else succeeds. -/
def try_from (tiles : List Nat) : Except SudokuParseError SudokuGrid :=
  let cell_width := fourth_root tiles.length
  let row_width := cell_width ^ 2
  if cell_width ^ 4 ≠ tiles.length then
    .error .NonSquare
  else if ¬ (tiles.all (fun n => n ≤ row_width)) then
    .error .DigitOutOfRange
  else
    .ok ⟨tiles, cell_width, row_width⟩

/-- Flat position read by `impl ops::Index<(usize, usize)>` in src/grid.rs: the
pattern `(row, col)` binds `row` to the FIRST tuple component and the access is
`row * row_width + col`. -/
def index_pos (g : SudokuGrid) (p : Nat × Nat) : Nat := p.1 * g.row_width + p.2

/-- Flat position written by `impl ops::IndexMut<(usize, usize)>` in src/grid.rs:
the pattern `(col, row)` binds `col` to the FIRST tuple component and `row` to the
SECOND, and the access is `row * row_width + col`, i.e. `p.2 * row_width + p.1`. -/
def index_mut_pos (g : SudokuGrid) (p : Nat × Nat) : Nat := p.2 * g.row_width + p.1

/-! Specification-side vocabulary.  The following definitions express the
spec's mathematical descriptions of the grid geometry (rows, columns, boxes as
index sets) and of well-formedness; the claim theorems relate the source-derived
functions above to these. -/

/-- The invariant established by successful construction (`try_from`): the tile
count is `cell_width⁴`, `row_width = cell_width²`, and every stored value is at most
`row_width`.  This is what the claims call a validly constructed grid. -/
def Valid (g : SudokuGrid) : Prop :=
  g.tiles.length = g.cell_width ^ 4 ∧ g.row_width = g.cell_width ^ 2 ∧
    ∀ v ∈ g.tiles, v ≤ g.row_width

instance : DecidablePred Valid := fun g => by unfold Valid; infer_instance

/-- Spec-side row view: the values at positions `r * row_width + j` for `j < row_width`. -/
def rowList (g : SudokuGrid) (r : Nat) : List Nat :=
  (List.range g.row_width).map (fun j => val g (r * g.row_width + j))

/-- Spec-side column view: the values at positions `i * row_width + c` for `i < row_width`. -/
def colList (g : SudokuGrid) (c : Nat) : List Nat :=
  (List.range g.row_width).map (fun i => val g (i * g.row_width + c))

/-- Spec-side box view: box `b` (in the `cell_width × cell_width` grid of boxes)
occupies rows `(b / cell_width) * cell_width + i` and columns
`(b % cell_width) * cell_width + j` for `i, j < cell_width`, listed in row-major
sub-order. -/
def boxList (g : SudokuGrid) (b : Nat) : List Nat :=
  (List.range g.cell_width).flatMap (fun i =>
    (List.range g.cell_width).map (fun j =>
      val g (((b / g.cell_width) * g.cell_width + i) * g.row_width +
        ((b % g.cell_width) * g.cell_width + j))))

/-- Box index of the box containing flat position `t`:
`(row / cell_width) * cell_width + col / cell_width`. -/
def box_of (g : SudokuGrid) (t : Nat) : Nat :=
  ((t / g.row_width) / g.cell_width) * g.cell_width + ((t % g.row_width) / g.cell_width)

/-- All values appearing in the row, the column and the box of flat position `t`
(the union named by the spec, kept as a concatenated list). -/
def unit_values (g : SudokuGrid) (t : Nat) : List Nat :=
  rowList g (t / g.row_width) ++ colList g (t % g.row_width) ++ boxList g (box_of g t)

/-- Two flat positions share a constraint unit: same row, same column, or same box. -/
def sameUnit (rw cw : Nat) (p q : Nat) : Prop :=
  p / rw = q / rw ∨ p % rw = q % rw ∨
    ((p / rw) / cw = (q / rw) / cw ∧ (p % rw) / cw = (q % rw) / cw)

instance (rw cw p q : Nat) : Decidable (sameUnit rw cw p q) := by
  unfold sameUnit; infer_instance

/-- A grid is conflict free: any two distinct cells sharing a row, column or box
never hold the same non-zero digit. -/
def Consistent (g : SudokuGrid) : Prop :=
  ∀ p, p < g.tiles.length → ∀ q, q < g.tiles.length →
    (p ≠ q ∧ sameUnit g.row_width g.cell_width p q ∧ val g p ≠ 0 ∧ val g q ≠ 0) →
      val g p ≠ val g q

instance : DecidablePred Consistent := fun g => by unfold Consistent; infer_instance

/-- The claim C1 postcondition on a grid: every row, column and box contains each
digit `1..=row_width` exactly once, and no cell holds 0. -/
def SolvedProps (g : SudokuGrid) : Prop :=
  (∀ u, u < g.row_width → ∀ d, 1 ≤ d → d ≤ g.row_width →
    (rowList g u).count d = 1 ∧ (colList g u).count d = 1 ∧ (boxList g u).count d = 1) ∧
  ∀ p, p < g.tiles.length → val g p ≠ 0

/-! Concrete fixtures used by individual claims. -/

/-- A validly constructed 4×4 grid whose sixteen tiles are all the digit 1 (full of
clue conflicts, but every value is in range so construction succeeds). -/
def gridAllOnes : SudokuGrid := ⟨List.replicate 16 1, 2, 4⟩

/-- A validly constructed, unsolvable 4×4 grid whose first tile holds the clue 1:
cell (0,1) has no candidate (its row holds 1,3,4 and its box holds 2). -/
def gridStuck : SudokuGrid := ⟨[1, 0, 3, 4, 0, 2, 0, 0, 0, 0, 0, 0, 0, 0, 0, 0], 2, 4⟩

/-- A validly constructed 4×4 grid whose only clue is the 2 at flat index 0; every
other tile is empty, so the first empty tile is at index 1. -/
def gridClueAtZero : SudokuGrid :=
  ⟨[2, 0, 0, 0, 0, 0, 0, 0, 0, 0, 0, 0, 0, 0, 0, 0], 2, 4⟩

/-- An 81-tile grid with all values in range whose rows 0 and 1 both hold the digit
1 in column 2 (and in column 3): a contradictory input in the sense of claim C8.
Its single empty cell (flat index 0) can be filled with 3 without violating any
constraint against the current values, so the solver completes it. -/
def gridContradictory : SudokuGrid :=
  ⟨[0, 2, 1, 1, 5, 6, 7, 8, 9,
    9, 8, 1, 1, 2, 3, 4, 5, 6,
    6, 5, 4, 7, 8, 9, 1, 2, 3,
    4, 3, 2, 5, 6, 7, 8, 9, 1,
    7, 6, 5, 8, 9, 1, 2, 3, 4,
    1, 9, 8, 2, 3, 4, 5, 6, 7,
    5, 4, 3, 6, 7, 8, 9, 1, 2,
    8, 7, 6, 9, 1, 2, 3, 4, 5,
    2, 1, 9, 3, 4, 5, 6, 7, 8], 3, 9⟩

/-- A validly constructed 36×36 grid (1296 tiles, cell_width 6, row_width 36) that
is empty except for the value 33 at flat index 1.  Because 33 exceeds the u32 mask
width, `set_bit 0 33` sets bit 33 % 32 = 1, so `possible` wrongly excludes the
digit 1 at cell 0. -/
def gridWide : SudokuGrid := ⟨(List.replicate 1296 0).set 1 33, 6, 36⟩

/-- A validly constructed, conflict-free, completely empty 4×4 grid. -/
def gridEmpty16 : SudokuGrid := ⟨List.replicate 16 0, 2, 4⟩

/-- The grid the solver produces from `gridEmpty16`. -/
def gridEmpty16Solved : SudokuGrid :=
  ⟨[1, 2, 3, 4, 3, 4, 1, 2, 2, 1, 4, 3, 4, 3, 2, 1], 2, 4⟩

/-- The grid the solver produces from `gridContradictory` (the single empty cell
at index 0 is filled with 3). -/
def gridContradictorySolved : SudokuGrid :=
  ⟨[3, 2, 1, 1, 5, 6, 7, 8, 9,
    9, 8, 1, 1, 2, 3, 4, 5, 6,
    6, 5, 4, 7, 8, 9, 1, 2, 3,
    4, 3, 2, 5, 6, 7, 8, 9, 1,
    7, 6, 5, 8, 9, 1, 2, 3, 4,
    1, 9, 8, 2, 3, 4, 5, 6, 7,
    5, 4, 3, 6, 7, 8, 9, 1, 2,
    8, 7, 6, 9, 1, 2, 3, 4, 5,
    2, 1, 9, 3, 4, 5, 6, 7, 8], 3, 9⟩

/-! Generic lemmas about the iterator combinators, characterising them as maps
over index ranges. -/

theorem getD_drop {α : Type} (l : List α) (s i : Nat) (d : α) :
    (l.drop s).getD i d = l.getD (s + i) d := by
  simp [List.getD_eq_getElem?_getD, List.getElem?_drop]

theorem drop_take_map_range (l : List Nat) (s k : Nat) (h : s + k ≤ l.length) :
    (l.drop s).take k = (List.range k).map (fun j => l.getD (s + j) 0) := by
  apply List.ext_getElem
  · simp; omega
  · intro n h1 h2
    have hn : n < k := by simpa using h2
    have hb : s + n < l.length := by omega
    simp only [List.getElem_take, List.getElem_drop, List.getElem_map, List.getElem_range,
      List.getD_eq_getElem _ _ hb]

theorem stepByGo_drop {α : Type} (k : Nat) (c : Nat) :
    ∀ (l : List α), stepByGo k l c = stepBy k (l.drop c) := by
  induction c with
  | zero => intro l; simp [stepBy]
  | succ c ih =>
    intro l
    cases l with
    | nil => simp [stepByGo, stepBy]
    | cons x xs => simpa [stepByGo] using ih xs

theorem stepBy_cons {α : Type} (k : Nat) (x : α) (xs : List α) :
    stepBy k (x :: xs) = x :: stepBy k (xs.drop (k - 1)) := by
  have h : stepBy k (x :: xs) = x :: stepByGo k xs (k - 1) := rfl
  rw [h, stepByGo_drop]

theorem stepBy_eq_map {α : Type} (k : Nat) (hk : 0 < k) (d : α) :
    ∀ (n : Nat) (l : List α), l.length ≤ n →
      stepBy k l = (List.range ((l.length + k - 1) / k)).map (fun i => l.getD (i * k) d) := by
  intro n
  induction n with
  | zero =>
    intro l hl
    have hnil : l = [] := List.eq_nil_of_length_eq_zero (by omega)
    subst hnil
    simp [stepBy, stepByGo, Nat.div_eq_of_lt (show k - 1 < k by omega)]
  | succ n ih =>
    intro l hl
    cases l with
    | nil => simp [stepBy, stepByGo, Nat.div_eq_of_lt (show k - 1 < k by omega)]
    | cons x xs =>
      have hxs : xs.length ≤ n := by
        simp only [List.length_cons] at hl
        omega
      rw [stepBy_cons]
      have hcount : ((x :: xs).length + k - 1) / k = xs.length / k + 1 := by
        have h1 : (x :: xs).length + k - 1 = xs.length + k := by
          simp only [List.length_cons]
          omega
        rw [h1, Nat.add_div_right _ hk]
      rw [hcount, List.range_succ_eq_map]
      simp only [List.map_cons, List.map_map]
      have hhead : (x :: xs).getD (0 * k) d = x := by simp
      rw [hhead]
      congr 1
      rw [ih (xs.drop (k - 1)) (by simp only [List.length_drop]; omega)]
      have hc2 : ((xs.drop (k - 1)).length + k - 1) / k = xs.length / k := by
        rcases Nat.lt_or_ge xs.length (k - 1) with h | h
        · rw [List.length_drop, Nat.sub_eq_zero_of_le (le_of_lt h),
            Nat.div_eq_of_lt (by omega), Nat.div_eq_of_lt (by omega)]
        · rw [List.length_drop]
          congr 1
          omega
      rw [hc2]
      apply List.map_congr_left
      intro i _
      show (xs.drop (k - 1)).getD (i * k) d = (x :: xs).getD ((i + 1) * k) d
      rw [getD_drop]
      have harg : (i + 1) * k = (k - 1 + i * k) + 1 := by
        have : (i + 1) * k = i * k + k := by ring
        omega
      rw [harg, List.getD_cons_succ]

theorem chunksGo_eq {α : Type} (k : Nat) (hk : 0 < k) :
    ∀ (fuel : Nat) (l : List α), l.length ≤ fuel →
      chunksGo k fuel l =
        (List.range ((l.length + k - 1) / k)).map (fun m => (l.drop (m * k)).take k) := by
  intro fuel
  induction fuel with
  | zero =>
    intro l hl
    have hnil : l = [] := List.eq_nil_of_length_eq_zero (by omega)
    subst hnil
    simp [chunksGo, Nat.div_eq_of_lt (show k - 1 < k by omega)]
  | succ fuel ih =>
    intro l hl
    cases l with
    | nil => simp [chunksGo, Nat.div_eq_of_lt (show k - 1 < k by omega)]
    | cons x xs =>
      have hxs : xs.length ≤ fuel := by
        simp only [List.length_cons] at hl
        omega
      show ((x :: xs).take k) :: chunksGo k fuel ((x :: xs).drop k) = _
      have hcount : ((x :: xs).length + k - 1) / k = xs.length / k + 1 := by
        have h1 : (x :: xs).length + k - 1 = xs.length + k := by
          simp only [List.length_cons]
          omega
        rw [h1, Nat.add_div_right _ hk]
      rw [hcount, List.range_succ_eq_map]
      simp only [List.map_cons, List.map_map]
      have hhead : ((x :: xs).drop (0 * k)).take k = (x :: xs).take k := by simp
      rw [hhead]
      congr 1
      rw [ih ((x :: xs).drop k) (by simp only [List.length_drop, List.length_cons]; omega)]
      have hc2 : (((x :: xs).drop k).length + k - 1) / k = xs.length / k := by
        rcases Nat.lt_or_ge xs.length (k - 1) with h | h
        · have hle : (x :: xs).length ≤ k := by
            simp only [List.length_cons]
            omega
          rw [List.length_drop, Nat.sub_eq_zero_of_le hle,
            Nat.div_eq_of_lt (show 0 + k - 1 < k by omega),
            Nat.div_eq_of_lt (show xs.length < k by omega)]
        · rw [List.length_drop]
          congr 1
          simp only [List.length_cons]
          omega
      rw [hc2]
      apply List.map_congr_left
      intro m _
      show (((x :: xs).drop k).drop (m * k)).take k = ((x :: xs).drop ((m + 1) * k)).take k
      rw [List.drop_drop]
      congr 2
      ring

theorem chunks_eq {α : Type} (k : Nat) (hk : 0 < k) (l : List α) :
    chunks k l =
      (List.range ((l.length + k - 1) / k)).map (fun m => (l.drop (m * k)).take k) :=
  chunksGo_eq k hk l.length l le_rfl

theorem map_range_drop {α : Type} (f : Nat → α) (n s : Nat) :
    ((List.range n).map f).drop s = (List.range (n - s)).map (fun i => f (s + i)) := by
  apply List.ext_getElem
  · simp
  · intro i h1 h2
    have hi : i < n - s := by simpa using h2
    simp only [List.getElem_drop, List.getElem_map, List.getElem_range]

theorem map_range_take {α : Type} (f : Nat → α) (n s : Nat) :
    ((List.range n).map f).take s = (List.range (min s n)).map f := by
  apply List.ext_getElem
  · simp
  · intro i h1 h2
    simp only [List.getElem_take, List.getElem_map, List.getElem_range]

theorem getD_map_range {α : Type} (f : Nat → α) (n i : Nat) (d : α) (h : i < n) :
    ((List.range n).map f).getD i d = f i := by
  rw [List.getD_eq_getElem _ _ (by simpa using h)]
  simp

/-! Characterisation of the three unit views as the spec-side lists. -/

theorem iter_row_eq (g : SudokuGrid) (r : Nat)
    (h : r * g.row_width + g.row_width ≤ g.tiles.length) :
    iter_row g r = rowList g r := by
  unfold iter_row rowList val
  exact drop_take_map_range _ _ _ h

theorem iter_col_eq (g : SudokuGrid) (c : Nat)
    (hlen : g.tiles.length = g.row_width * g.row_width) (hc : c < g.row_width) :
    iter_col g c = colList g c := by
  have hrw : 0 < g.row_width := by omega
  unfold iter_col
  rw [stepBy_eq_map g.row_width hrw 0 (g.tiles.drop c).length _ le_rfl]
  have hdroplen : (g.tiles.drop c).length = g.row_width * g.row_width - c := by
    simp [hlen]
  have hcount : ((g.tiles.drop c).length + g.row_width - 1) / g.row_width = g.row_width := by
    rw [hdroplen]
    have h1 : g.row_width * g.row_width - c + g.row_width - 1 =
        (g.row_width - 1 - c) + g.row_width * g.row_width := by
      have hsq : c < g.row_width * g.row_width := by nlinarith
      omega
    rw [h1, Nat.add_mul_div_left _ _ hrw, Nat.div_eq_of_lt (by omega)]
    omega
  rw [hcount]
  unfold colList val
  apply List.map_congr_left
  intro i _
  rw [getD_drop]
  congr 1
  omega

theorem iter_cell_eq (g : SudokuGrid) (row col : Nat)
    (hlen : g.tiles.length = g.cell_width ^ 4)
    (hrw : g.row_width = g.cell_width ^ 2)
    (hrow : row < g.row_width) (hcol : col < g.row_width) :
    iter_cell g row col =
      boxList g ((row / g.cell_width) * g.cell_width + col / g.cell_width) := by
  have hcw : 0 < g.cell_width := by
    rcases Nat.eq_zero_or_pos g.cell_width with h | h
    · exfalso
      rw [h] at hrw
      simp at hrw
      omega
    · exact h
  have hsq : g.cell_width ^ 2 = g.cell_width * g.cell_width := by ring
  have hrow2 : row < g.cell_width * g.cell_width := by
    rw [hrw, hsq] at hrow
    exact hrow
  have hcol2 : col < g.cell_width * g.cell_width := by
    rw [hrw, hsq] at hcol
    exact hcol
  have hbr0 : row / g.cell_width < g.cell_width :=
    (Nat.div_lt_iff_lt_mul hcw).mpr hrow2
  have hbc0 : col / g.cell_width < g.cell_width :=
    (Nat.div_lt_iff_lt_mul hcw).mpr hcol2
  obtain ⟨br, hbrdef, hbr⟩ : ∃ b, row / g.cell_width = b ∧ b < g.cell_width :=
    ⟨_, rfl, hbr0⟩
  obtain ⟨bc, hbcdef, hbc⟩ : ∃ b, col / g.cell_width = b ∧ b < g.cell_width :=
    ⟨_, rfl, hbc0⟩
  have e1 : br * g.cell_width ^ 2 + g.cell_width ^ 2 ≤ g.cell_width ^ 3 := by
    calc br * g.cell_width ^ 2 + g.cell_width ^ 2
        = (br + 1) * g.cell_width ^ 2 := by ring
    _ ≤ g.cell_width * g.cell_width ^ 2 := Nat.mul_le_mul_right _ hbr
    _ = g.cell_width ^ 3 := by ring
  have hb1 : (br * g.cell_width + bc) / g.cell_width = br := by
    have h7 : br * g.cell_width + bc = bc + g.cell_width * br := by ring
    rw [h7, Nat.add_mul_div_left _ _ hcw, Nat.div_eq_of_lt hbc]
    omega
  have hb2 : (br * g.cell_width + bc) % g.cell_width = bc := by
    have h7 : br * g.cell_width + bc = bc + g.cell_width * br := by ring
    rw [h7, Nat.add_mul_mod_self_left, Nat.mod_eq_of_lt hbc]
  unfold iter_cell boxList
  simp only [hbrdef, hbcdef, hrw, hb1, hb2]
  rw [chunks_eq _ hcw, hlen]
  have hnum : (g.cell_width ^ 4 + g.cell_width - 1) / g.cell_width = g.cell_width ^ 3 := by
    have h1 : g.cell_width ^ 4 + g.cell_width - 1 =
        (g.cell_width - 1) + g.cell_width * g.cell_width ^ 3 := by
      have h2 : g.cell_width ^ 4 = g.cell_width * g.cell_width ^ 3 := by ring
      omega
    rw [h1, Nat.add_mul_div_left _ _ hcw, Nat.div_eq_of_lt (by omega)]
    omega
  rw [hnum, map_range_drop, stepBy_eq_map _ hcw ([] : List Nat) _ _ le_rfl,
    List.length_map, List.length_range]
  have hcount2 : g.cell_width ≤
      (g.cell_width ^ 3 - (br * g.cell_width ^ 2 + bc) + g.cell_width - 1) /
        g.cell_width := by
    rw [Nat.le_div_iff_mul_le hcw]
    have h3 : g.cell_width * g.cell_width = g.cell_width ^ 2 := by ring
    omega
  rw [map_range_take, Nat.min_eq_left hcount2, List.flatMap_def]
  congr 1
  apply List.map_congr_left
  intro i hmem
  have hi : i < g.cell_width := List.mem_range.mp hmem
  have e2 : i * g.cell_width + g.cell_width ≤ g.cell_width ^ 2 := by
    calc i * g.cell_width + g.cell_width = (i + 1) * g.cell_width := by ring
    _ ≤ g.cell_width * g.cell_width := Nat.mul_le_mul_right _ hi
    _ = g.cell_width ^ 2 := by ring
  have hkey : br * g.cell_width ^ 2 + bc + i * g.cell_width + 1 ≤ g.cell_width ^ 3 := by
    omega
  rw [getD_map_range _ _ _ _ (by omega)]
  have hbound : (br * g.cell_width ^ 2 + bc + i * g.cell_width) * g.cell_width +
      g.cell_width ≤ g.tiles.length := by
    rw [hlen]
    calc (br * g.cell_width ^ 2 + bc + i * g.cell_width) * g.cell_width + g.cell_width
        = (br * g.cell_width ^ 2 + bc + i * g.cell_width + 1) * g.cell_width := by ring
    _ ≤ g.cell_width ^ 3 * g.cell_width := Nat.mul_le_mul_right _ hkey
    _ = g.cell_width ^ 4 := by ring
  rw [drop_take_map_range _ _ _ hbound]
  apply List.map_congr_left
  intro j _
  unfold val
  congr 1
  ring

/-! Lemmas about the u32 exclusion mask computed by `possible`. -/

theorem test_bit_eq_testBit (b n : Nat) : test_bit b n = b.testBit (n % 32) := by
  unfold test_bit
  have h1 : (1 : Nat) <<< (n % 32) = 2 ^ (n % 32) := by
    rw [Nat.shiftLeft_eq]
    ring
  rw [h1, Nat.and_two_pow]
  cases h : b.testBit (n % 32) with
  | true => simp
  | false =>
    simp only [Bool.toNat_false, Nat.zero_mul]
    rw [beq_eq_false_iff_ne]
    exact (Nat.two_pow_pos _).ne

theorem testBit_set_bit (b x k : Nat) :
    (set_bit b x).testBit k = (b.testBit k || (x % 32 == k)) := by
  unfold set_bit
  rw [Nat.testBit_lor]
  have h2 : (1 : Nat) <<< (x % 32) = 2 ^ (x % 32) := by
    rw [Nat.shiftLeft_eq]
    ring
  rw [h2, Nat.testBit_two_pow]
  congr 1

theorem testBit_foldl_set_bit (l : List Nat) : ∀ (b k : Nat),
    (l.foldl set_bit b).testBit k = (b.testBit k || l.any (fun v => v % 32 == k)) := by
  induction l with
  | nil =>
    intro b k
    simp
  | cons x xs ih =>
    intro b k
    rw [List.foldl_cons, ih, testBit_set_bit, List.any_cons, Bool.or_assoc]

theorem test_bit_possible (g : SudokuGrid) (t num : Nat) :
    test_bit (possible g t) num =
      !((iter_row g (t / g.row_width) ++ (iter_col g (t % g.row_width) ++
          iter_cell g (t / g.row_width) (t % g.row_width))).any
        (fun v => v % 32 == num % 32)) := by
  unfold possible
  rw [test_bit_eq_testBit, Nat.testBit_xor]
  have hmask : mask32.testBit (num % 32) = true := by
    unfold mask32
    rw [Nat.testBit_two_pow_sub_one]
    simp [Nat.mod_lt _ (by omega : (0:Nat) < 32)]
  rw [hmask, Bool.xor_true]
  congr 1
  rw [← List.foldl_append, ← List.foldl_append, testBit_foldl_set_bit]
  simp [List.append_assoc]

/-- Positivity of the two widths for a non-empty well-shaped grid. -/
theorem width_pos (g : SudokuGrid) (hlen : g.tiles.length = g.cell_width ^ 4)
    (hrw : g.row_width = g.cell_width ^ 2) (hpos : 0 < g.tiles.length) :
    0 < g.cell_width ∧ 0 < g.row_width := by
  have hcw : 0 < g.cell_width := by
    rcases Nat.eq_zero_or_pos g.cell_width with h | h
    · exfalso
      have hz : g.tiles.length = 0 := by
        rw [hlen, h]
        simp
      omega
    · exact h
  refine ⟨hcw, ?_⟩
  rw [hrw]
  exact pow_pos hcw 2

/-- Any cell sharing a unit with `t` has its value in one of the three views that
`possible` scans for cell `t`. -/
theorem val_mem_units (g : SudokuGrid) (t q : Nat)
    (hlen : g.tiles.length = g.cell_width ^ 4)
    (hrw : g.row_width = g.cell_width ^ 2)
    (ht : t < g.tiles.length) (hq : q < g.tiles.length)
    (hu : sameUnit g.row_width g.cell_width t q) :
    val g q ∈ iter_row g (t / g.row_width) ∨
      val g q ∈ iter_col g (t % g.row_width) ∨
        val g q ∈ iter_cell g (t / g.row_width) (t % g.row_width) := by
  obtain ⟨hcw, hrow_pos⟩ := width_pos g hlen hrw (by omega)
  have hsq : g.tiles.length = g.row_width * g.row_width := by
    rw [hlen, hrw]
    ring
  have hqdiv : q / g.row_width < g.row_width := by
    apply (Nat.div_lt_iff_lt_mul hrow_pos).mpr
    omega
  have htdiv : t / g.row_width < g.row_width := by
    apply (Nat.div_lt_iff_lt_mul hrow_pos).mpr
    omega
  have hqmod : q % g.row_width < g.row_width := Nat.mod_lt _ hrow_pos
  have htmod : t % g.row_width < g.row_width := Nat.mod_lt _ hrow_pos
  rcases hu with hrow | hcol | hbox
  · left
    rw [iter_row_eq g _ (by nlinarith [Nat.succ_le_of_lt htdiv])]
    unfold rowList
    apply List.mem_map.mpr
    refine ⟨q % g.row_width, List.mem_range.mpr hqmod, ?_⟩
    rw [hrow]
    congr 1
    rw [Nat.mul_comm]
    exact Nat.div_add_mod q g.row_width
  · right
    left
    rw [iter_col_eq g _ hsq (by omega)]
    unfold colList
    apply List.mem_map.mpr
    refine ⟨q / g.row_width, List.mem_range.mpr hqdiv, ?_⟩
    congr 1
    rw [hcol]
    have h2 := Nat.div_add_mod q g.row_width
    rw [Nat.mul_comm] at h2
    omega
  · right
    right
    rw [iter_cell_eq g _ _ hlen hrw htdiv htmod]
    obtain ⟨hbox1, hbox2⟩ := hbox
    have hBR : (t / g.row_width) / g.cell_width < g.cell_width := by
      apply (Nat.div_lt_iff_lt_mul hcw).mpr
      have h3 : g.cell_width * g.cell_width = g.cell_width ^ 2 := by ring
      omega
    have hBC : (t % g.row_width) / g.cell_width < g.cell_width := by
      apply (Nat.div_lt_iff_lt_mul hcw).mpr
      have h3 : g.cell_width * g.cell_width = g.cell_width ^ 2 := by ring
      omega
    have hb1 : ((t / g.row_width) / g.cell_width * g.cell_width +
        (t % g.row_width) / g.cell_width) / g.cell_width =
        (t / g.row_width) / g.cell_width := by
      have h7 : (t / g.row_width) / g.cell_width * g.cell_width +
          (t % g.row_width) / g.cell_width =
          (t % g.row_width) / g.cell_width +
            g.cell_width * ((t / g.row_width) / g.cell_width) := by ring
      rw [h7, Nat.add_mul_div_left _ _ hcw, Nat.div_eq_of_lt hBC]
      omega
    have hb2 : ((t / g.row_width) / g.cell_width * g.cell_width +
        (t % g.row_width) / g.cell_width) % g.cell_width =
        (t % g.row_width) / g.cell_width := by
      have h7 : (t / g.row_width) / g.cell_width * g.cell_width +
          (t % g.row_width) / g.cell_width =
          (t % g.row_width) / g.cell_width +
            g.cell_width * ((t / g.row_width) / g.cell_width) := by ring
      rw [h7, Nat.add_mul_mod_self_left, Nat.mod_eq_of_lt hBC]
    unfold boxList
    rw [hb1, hb2]
    apply List.mem_flatMap.mpr
    refine ⟨(q / g.row_width) % g.cell_width,
      List.mem_range.mpr (Nat.mod_lt _ hcw), ?_⟩
    apply List.mem_map.mpr
    refine ⟨(q % g.row_width) % g.cell_width,
      List.mem_range.mpr (Nat.mod_lt _ hcw), ?_⟩
    congr 1
    have h8 : (t / g.row_width) / g.cell_width * g.cell_width +
        (q / g.row_width) % g.cell_width = q / g.row_width := by
      rw [hbox1]
      have h9 := Nat.div_add_mod (q / g.row_width) g.cell_width
      rw [Nat.mul_comm] at h9
      omega
    have h10 : (t % g.row_width) / g.cell_width * g.cell_width +
        (q % g.row_width) % g.cell_width = q % g.row_width := by
      rw [hbox2]
      have h11 := Nat.div_add_mod (q % g.row_width) g.cell_width
      rw [Nat.mul_comm] at h11
      omega
    rw [h8, h10]
    have h12 := Nat.div_add_mod q g.row_width
    rw [Nat.mul_comm] at h12
    omega

/-- Soundness of the candidate mask: a digit whose bit survives the exclusion mask
differs from every value in the row, column and box of the queried cell. -/
theorem possible_excludes (g : SudokuGrid) (t num : Nat)
    (hlen : g.tiles.length = g.cell_width ^ 4)
    (hrw : g.row_width = g.cell_width ^ 2)
    (ht : t < g.tiles.length)
    (htb : test_bit (possible g t) num = true) :
    ∀ q, q < g.tiles.length → sameUnit g.row_width g.cell_width t q →
      val g q ≠ num := by
  intro q hq hu heq
  rw [test_bit_possible, Bool.not_eq_eq_eq_not, Bool.not_true, List.any_eq_false] at htb
  have hmem := val_mem_units g t q hlen hrw ht hq hu
  have hval : val g q % 32 ≠ num % 32 → False := by
    intro hne
    exact hne (by rw [heq])
  apply hval
  intro hmod
  rcases hmem with hm | hm | hm
  · exact absurd (by simpa using hmod) (by simpa using htb _ (List.mem_append_left _ hm))
  · exact absurd (by simpa using hmod)
      (by simpa using htb _ (List.mem_append_right _ (List.mem_append_left _ hm)))
  · exact absurd (by simpa using hmod)
      (by simpa using htb _ (List.mem_append_right _ (List.mem_append_right _ hm)))

/-! Small list helpers about single-cell writes. -/

theorem getD_set_ne (l : List Nat) (m n a : Nat) (h : m ≠ n) :
    (l.set m a).getD n 0 = l.getD n 0 := by
  rcases Nat.lt_or_ge n l.length with hn | hn
  · rw [List.getD_eq_getElem _ _ (by simpa using hn), List.getD_eq_getElem _ _ hn,
      List.getElem_set]
    simp [h]
  · rw [List.getD_eq_getElem?_getD, List.getD_eq_getElem?_getD,
      List.getElem?_eq_none (by simpa using hn), List.getElem?_eq_none hn]

theorem getD_set_self (l : List Nat) (n a : Nat) (hn : n < l.length) :
    (l.set n a).getD n 0 = a := by
  rw [List.getD_eq_getElem _ _ (by simpa using hn), List.getElem_set]
  simp

theorem getD_set_self_zero (l : List Nat) (n : Nat) :
    (l.set n 0).getD n 0 = 0 := by
  rcases Nat.lt_or_ge n l.length with hn | hn
  · exact getD_set_self l n 0 hn
  · rw [List.getD_eq_getElem?_getD, List.getElem?_eq_none (by simpa using hn)]
    rfl

theorem set_zero_of_getD_zero (l : List Nat) (n : Nat) (h : l.getD n 0 = 0) :
    l.set n 0 = l := by
  induction l generalizing n with
  | nil => rfl
  | cons x xs ih =>
    cases n with
    | zero =>
      simp only [List.getD_cons_zero] at h
      simp [h]
    | succ n =>
      simp only [List.getD_cons_succ] at h
      simp [ih n h]

/-! Specification of the next-empty-tile scan and of the first-zero search. -/

theorem next_tile_none (g : SudokuGrid) (t : Nat) (h : next_tile g t = none) :
    ∀ p, t < p → p < g.tiles.length → val g p ≠ 0 := by
  intro p hp hplen
  unfold next_tile at h
  rw [Option.map_eq_none', List.findIdx?_eq_none_iff] at h
  have hidx : p - (t + 1) < (g.tiles.drop (t + 1)).length := by
    simp only [List.length_drop]
    omega
  have hmem : (g.tiles.drop (t + 1)).getD (p - (t + 1)) 0 ∈ g.tiles.drop (t + 1) := by
    rw [List.getD_eq_getElem _ _ hidx]
    exact List.getElem_mem _
  have h2 := h _ hmem
  rw [getD_drop] at h2
  have harg : t + 1 + (p - (t + 1)) = p := by omega
  rw [harg] at h2
  intro hzero
  rw [val] at hzero
  rw [hzero] at h2
  simp at h2

theorem next_tile_some (g : SudokuGrid) (t n : Nat) (h : next_tile g t = some n) :
    t < n ∧ n < g.tiles.length ∧ val g n = 0 ∧
      ∀ p, t < p → p < n → val g p ≠ 0 := by
  unfold next_tile at h
  rw [Option.map_eq_some'] at h
  obtain ⟨i, hfind, hn⟩ := h
  rw [List.findIdx?_eq_some_iff_getElem] at hfind
  obtain ⟨hilen, hpi, hmin⟩ := hfind
  have hlen : i < g.tiles.length - (t + 1) := by simpa using hilen
  refine ⟨by omega, by omega, ?_, ?_⟩
  · have h0 : (g.tiles.drop (t + 1)).getD i 0 = 0 := by
      rw [List.getD_eq_getElem _ _ hilen]
      simpa using hpi
    rw [getD_drop] at h0
    rw [val, ← hn]
    have harg : i + t + 1 = t + 1 + i := by omega
    rw [harg]
    exact h0
  · intro p hp1 hp2
    have hj : p - (t + 1) < i := by omega
    have hjlen : p - (t + 1) < (g.tiles.drop (t + 1)).length := by
      simp only [List.length_drop]
      omega
    have h3 := hmin (p - (t + 1)) hj
    have h4 : (g.tiles.drop (t + 1)).getD (p - (t + 1)) 0 ≠ 0 := by
      rw [List.getD_eq_getElem _ _ hjlen]
      intro hz
      rw [hz] at h3
      simp at h3
    rw [getD_drop] at h4
    have harg : t + 1 + (p - (t + 1)) = p := by omega
    rw [harg] at h4
    exact h4

/-! Restoration: whenever the recursion reports UnSolved, the only change to the
grid is that its own tile was reset to 0. -/

theorem tryNums_restore
    (recur : SudokuGrid → Nat → Option (SolveState × SudokuGrid))
    (tileno : Nat) (next : Option Nat)
    (hrec : ∀ g1 n st h1, recur g1 n = some (st, h1) →
      h1.cell_width = g1.cell_width ∧ h1.row_width = g1.row_width ∧
      h1.tiles.length = g1.tiles.length ∧
      (st = .UnSolved → h1.tiles = g1.tiles.set n 0)) :
    ∀ (nums : List Nat) (g : SudokuGrid) (st : SolveState) (h : SudokuGrid),
      (∀ n, next = some n → tileno < n ∧ g.tiles.getD n 0 = 0) →
      tryNums recur g tileno next nums = some (st, h) →
      h.cell_width = g.cell_width ∧ h.row_width = g.row_width ∧
      h.tiles.length = g.tiles.length ∧
      (st = .UnSolved → h.tiles = g.tiles.set tileno 0) := by
  intro nums
  induction nums with
  | nil =>
    intro g st h hn heq
    have heq2 : some ((SolveState.UnSolved, setTile g tileno 0) :
        SolveState × SudokuGrid) = some (st, h) := heq
    simp only [Option.some.injEq, Prod.mk.injEq] at heq2
    obtain ⟨hst, hh⟩ := heq2
    subst hh
    exact ⟨rfl, rfl, by simp [setTile], fun _ => rfl⟩
  | cons num rest ih =>
    intro g st h hn heq
    cases hnext : next with
    | none =>
      subst hnext
      have heq2 : some ((SolveState.Solved, setTile g tileno num) :
          SolveState × SudokuGrid) = some (st, h) := heq
      simp only [Option.some.injEq, Prod.mk.injEq] at heq2
      obtain ⟨hst, hh⟩ := heq2
      subst hh
      exact ⟨rfl, rfl, by simp [setTile],
        fun hcontra => by rw [← hst] at hcontra; cases hcontra⟩
    | some nextno =>
      subst hnext
      have heq2 : (match recur (setTile g tileno num) nextno with
          | none => none
          | some (SolveState.Solved, g2) => some (SolveState.Solved, g2)
          | some (SolveState.UnSolved, g2) =>
              tryNums recur g2 tileno (some nextno) rest) = some (st, h) := heq
      cases hrec1 : recur (setTile g tileno num) nextno with
      | none =>
        rw [hrec1] at heq2
        cases heq2
      | some res =>
        obtain ⟨st1, g2⟩ := res
        rw [hrec1] at heq2
        have hr := hrec _ _ _ _ hrec1
        obtain ⟨hw1, hw2, hlen1, hrest⟩ := hr
        cases st1 with
        | Solved =>
          simp only [Option.some.injEq, Prod.mk.injEq] at heq2
          obtain ⟨hst, hh⟩ := heq2
          subst hh
          refine ⟨by rw [hw1]; rfl, by rw [hw2]; rfl,
            by rw [hlen1]; simp [setTile],
            fun hcontra => by rw [← hst] at hcontra; cases hcontra⟩
        | UnSolved =>
          have hg2 : g2.tiles = (g.tiles.set tileno num).set nextno 0 := by
            have h5 := hrest rfl
            rwa [setTile] at h5
          have hlt : tileno < nextno := (hn nextno rfl).1
          have hn0 : g.tiles.getD nextno 0 = 0 := (hn nextno rfl).2
          have hn2 : ∀ n, (some nextno : Option Nat) = some n →
              tileno < n ∧ g2.tiles.getD n 0 = 0 := by
            intro n hsome
            injection hsome with hnn
            subst hnn
            refine ⟨hlt, ?_⟩
            rw [hg2]
            exact getD_set_self_zero _ _
          have hmain := ih g2 st h hn2 heq2
          obtain ⟨ha, hb, hc, hd⟩ := hmain
          refine ⟨by rw [ha, hw1]; rfl, by rw [hb, hw2]; rfl,
            by rw [hc, hlen1]; simp [setTile], ?_⟩
          intro hst
          have hrestored := hd hst
          rw [hrestored, hg2, List.set_comm _ _ _ (show tileno ≠ nextno by omega),
            List.set_set, List.set_comm _ _ _ (show nextno ≠ tileno by omega)]
          apply set_zero_of_getD_zero
          rw [getD_set_ne _ _ _ _ (show tileno ≠ nextno by omega)]
          exact hn0

theorem solve_rec_restore : ∀ (fuel : Nat) (g : SudokuGrid) (t : Nat)
    (st : SolveState) (h : SudokuGrid),
    solve_rec fuel g t = some (st, h) →
    h.cell_width = g.cell_width ∧ h.row_width = g.row_width ∧
    h.tiles.length = g.tiles.length ∧
    (st = .UnSolved → h.tiles = g.tiles.set t 0) := by
  intro fuel
  induction fuel with
  | zero =>
    intro g t st h heq
    simp [solve_rec] at heq
  | succ fuel ih =>
    intro g t st h heq
    simp only [solve_rec] at heq
    apply tryNums_restore (solve_rec fuel) t (next_tile g t)
      (fun g1 n st1 h1 hr => ih g1 n st1 h1 hr) _ g st h ?_ heq
    intro n hsome
    obtain ⟨h1, _, h3, _⟩ := next_tile_some g t n hsome
    exact ⟨h1, h3⟩

/-! Fuel sufficiency: `tiles.length - tileno` bounds the recursion depth, so a fuel
of `tiles.length + 1` can never run out. -/

theorem solve_rec_isSome : ∀ (fuel : Nat) (g : SudokuGrid) (t : Nat),
    g.tiles.length ≤ t + fuel → (solve_rec (fuel + 1) g t).isSome := by
  intro fuel
  induction fuel with
  | zero =>
    intro g t hle
    have hdrop : g.tiles.drop (t + 1) = [] :=
      List.eq_nil_of_length_eq_zero (by simp only [List.length_drop]; omega)
    have hnext : next_tile g t = none := by
      unfold next_tile
      rw [hdrop]
      rfl
    show (tryNums (solve_rec 0) g t (next_tile g t) _).isSome
    rw [hnext]
    cases ((List.range' 1 g.row_width).filter
        (fun d => test_bit (possible g t) d)) with
    | nil => rfl
    | cons num rest => rfl
  | succ fuel ih =>
    intro g t hle
    show (tryNums (solve_rec (fuel + 1)) g t (next_tile g t) _).isSome
    cases hnext : next_tile g t with
    | none =>
      cases ((List.range' 1 g.row_width).filter
          (fun d => test_bit (possible g t) d)) with
      | nil => rfl
      | cons num rest => rfl
    | some n =>
      obtain ⟨hlt, hn_len, hn0, _⟩ := next_tile_some g t n hnext
      have key : ∀ (nums : List Nat) (g1 : SudokuGrid),
          g1.tiles.length = g.tiles.length →
          (tryNums (solve_rec (fuel + 1)) g1 t (some n) nums).isSome := by
        intro nums
        induction nums with
        | nil =>
          intro g1 _
          rfl
        | cons num rest ih2 =>
          intro g1 hlen1
          have hrec_some : (solve_rec (fuel + 1) (setTile g1 t num) n).isSome := by
            apply ih
            simp only [setTile, List.length_set]
            omega
          obtain ⟨res, hr⟩ := Option.isSome_iff_exists.mp hrec_some
          obtain ⟨st1, g2⟩ := res
          show (match solve_rec (fuel + 1) (setTile g1 t num) n with
            | none => none
            | some (SolveState.Solved, g2) => some (SolveState.Solved, g2)
            | some (SolveState.UnSolved, g2) =>
                tryNums (solve_rec (fuel + 1)) g2 t (some n) rest).isSome
          rw [hr]
          cases st1 with
          | Solved => rfl
          | UnSolved =>
            apply ih2 g2
            have hres := solve_rec_restore (fuel + 1) _ _ _ _ hr
            rw [hres.2.2.1]
            simp only [setTile, List.length_set]
            omega
      exact key _ g rfl

/-! The solved-state postcondition: writes that pass the candidate mask keep the
grid conflict free, bounded, and (given the left-of-cursor invariant) a Solved
result has no empty cell. -/

theorem sameUnit_symm (rw cw p q : Nat) (h : sameUnit rw cw p q) :
    sameUnit rw cw q p := by
  rcases h with h | h | ⟨h1, h2⟩
  · exact Or.inl h.symm
  · exact Or.inr (Or.inl h.symm)
  · exact Or.inr (Or.inr ⟨h1.symm, h2.symm⟩)

theorem consistent_set (g0 : SudokuGrid) (tileno num : Nat) (g1 : SudokuGrid)
    (hg1tiles : g1.tiles = g0.tiles.set tileno num)
    (hw1 : g1.cell_width = g0.cell_width) (hw2 : g1.row_width = g0.row_width)
    (ht : tileno < g0.tiles.length)
    (hmask : ∀ q, q < g0.tiles.length →
      sameUnit g0.row_width g0.cell_width tileno q → val g0 q ≠ num)
    (hc : Consistent g0) : Consistent g1 := by
  intro p hp q hq hconj
  obtain ⟨hne, hunit, hnzp, hnzq⟩ := hconj
  have hlen : g1.tiles.length = g0.tiles.length := by
    rw [hg1tiles, List.length_set]
  rw [hlen] at hp hq
  rw [hw1, hw2] at hunit
  have hval : ∀ r, r ≠ tileno → val g1 r = val g0 r := by
    intro r hr
    rw [val, val, hg1tiles, getD_set_ne _ _ _ _ (Ne.symm hr)]
  have hvt : val g1 tileno = num := by
    rw [val, hg1tiles]
    exact getD_set_self _ _ _ ht
  by_cases hpt : p = tileno
  · subst hpt
    have hqt : q ≠ p := Ne.symm hne
    rw [hvt, hval q hqt]
    exact Ne.symm (hmask q hq hunit)
  · by_cases hqt : q = tileno
    · subst hqt
      rw [hvt, hval p hpt]
      exact hmask p hp (sameUnit_symm _ _ _ _ hunit)
    · rw [hval p hpt, hval q hqt]
      apply hc p hp q hq
      refine ⟨hne, hunit, ?_, ?_⟩
      · rwa [hval p hpt] at hnzp
      · rwa [hval q hqt] at hnzq

theorem tryNums_solved
    (recur : SudokuGrid → Nat → Option (SolveState × SudokuGrid))
    (g0 : SudokuGrid) (tileno : Nat) (next : Option Nat)
    (ht : tileno < g0.tiles.length)
    (hnext_none : next = none → ∀ p, tileno < p → p < g0.tiles.length → val g0 p ≠ 0)
    (hnext_some : ∀ n, next = some n → tileno < n ∧ n < g0.tiles.length ∧
      val g0 n = 0 ∧ ∀ p, tileno < p → p < n → val g0 p ≠ 0)
    (hrec_restore : ∀ g1 n st h1, recur g1 n = some (st, h1) →
      h1.cell_width = g1.cell_width ∧ h1.row_width = g1.row_width ∧
      h1.tiles.length = g1.tiles.length ∧
      (st = .UnSolved → h1.tiles = g1.tiles.set n 0))
    (hrec_solved : ∀ g1 n h1,
      g1.cell_width = g0.cell_width → g1.row_width = g0.row_width →
      g1.tiles.length = g0.tiles.length → n < g1.tiles.length →
      recur g1 n = some (.Solved, h1) →
      h1.cell_width = g1.cell_width ∧ h1.row_width = g1.row_width ∧
      h1.tiles.length = g1.tiles.length ∧
      (Consistent g1 → Consistent h1) ∧
      ((∀ v ∈ g1.tiles, v ≤ g1.row_width) → ∀ v ∈ h1.tiles, v ≤ h1.row_width) ∧
      ((∀ p, p < n → p < g1.tiles.length → val g1 p ≠ 0) →
        ∀ p, p < h1.tiles.length → val h1 p ≠ 0)) :
    ∀ (nums : List Nat) (g : SudokuGrid),
      g.cell_width = g0.cell_width → g.row_width = g0.row_width →
      (∀ num, (setTile g tileno num).tiles = g0.tiles.set tileno num) →
      (∀ num ∈ nums, 1 ≤ num ∧ num ≤ g0.row_width ∧
        ∀ q, q < g0.tiles.length → sameUnit g0.row_width g0.cell_width tileno q →
          val g0 q ≠ num) →
      ∀ (h : SudokuGrid), tryNums recur g tileno next nums = some (.Solved, h) →
      h.cell_width = g0.cell_width ∧ h.row_width = g0.row_width ∧
      h.tiles.length = g0.tiles.length ∧
      (Consistent g0 → Consistent h) ∧
      ((∀ v ∈ g0.tiles, v ≤ g0.row_width) → ∀ v ∈ h.tiles, v ≤ h.row_width) ∧
      ((∀ p, p < tileno → p < g0.tiles.length → val g0 p ≠ 0) →
        ∀ p, p < h.tiles.length → val h p ≠ 0) := by
  intro nums
  induction nums with
  | nil =>
    intro g _ _ _ _ h heq
    have heq2 : some ((SolveState.UnSolved, setTile g tileno 0) :
        SolveState × SudokuGrid) = some (SolveState.Solved, h) := heq
    simp at heq2
  | cons num rest ih =>
    intro g hgw1 hgw2 hcollapse hnums h heq
    obtain ⟨hnum1, hnum2, hnum_mask⟩ := hnums num (List.mem_cons_self _ _)
    have hg1tiles : (setTile g tileno num).tiles = g0.tiles.set tileno num :=
      hcollapse num
    have hg1w1 : (setTile g tileno num).cell_width = g0.cell_width := hgw1
    have hg1w2 : (setTile g tileno num).row_width = g0.row_width := hgw2
    have hg1len : (setTile g tileno num).tiles.length = g0.tiles.length := by
      rw [hg1tiles, List.length_set]
    have hvt : val (setTile g tileno num) tileno = num := by
      rw [val, hg1tiles]
      exact getD_set_self _ _ _ ht
    have hval_ne : ∀ r, r ≠ tileno →
        val (setTile g tileno num) r = val g0 r := by
      intro r hr
      rw [val, val, hg1tiles, getD_set_ne _ _ _ _ (Ne.symm hr)]
    have hcons1 : Consistent g0 → Consistent (setTile g tileno num) :=
      consistent_set g0 tileno num _ hg1tiles hg1w1 hg1w2 ht hnum_mask
    have hbound1 : (∀ v ∈ g0.tiles, v ≤ g0.row_width) →
        ∀ v ∈ (setTile g tileno num).tiles, v ≤ (setTile g tileno num).row_width := by
      intro hb v hv
      rw [hg1tiles] at hv
      rw [hg1w2]
      rcases List.mem_or_eq_of_mem_set hv with h1 | h1
      · exact hb v h1
      · omega
    cases hnext : next with
    | none =>
      subst hnext
      have heq2 : some ((SolveState.Solved, setTile g tileno num) :
          SolveState × SudokuGrid) = some (SolveState.Solved, h) := heq
      simp only [Option.some.injEq, Prod.mk.injEq, true_and] at heq2
      subst heq2
      refine ⟨hg1w1, hg1w2, hg1len, hcons1, hbound1, ?_⟩
      intro hnzb p hp
      rw [hg1len] at hp
      rcases Nat.lt_trichotomy p tileno with hpt | hpt | hpt
      · rw [hval_ne p (by omega)]
        exact hnzb p hpt hp
      · subst hpt
        rw [hvt]
        omega
      · rw [hval_ne p (by omega)]
        exact hnext_none rfl p hpt hp
    | some nextno =>
      subst hnext
      have heq2 : (match recur (setTile g tileno num) nextno with
          | none => none
          | some (SolveState.Solved, g2) => some (SolveState.Solved, g2)
          | some (SolveState.UnSolved, g2) =>
              tryNums recur g2 tileno (some nextno) rest) =
          some (SolveState.Solved, h) := heq
      obtain ⟨hlt, hn_len, hn0, hmin⟩ := hnext_some nextno rfl
      cases hrec1 : recur (setTile g tileno num) nextno with
      | none =>
        rw [hrec1] at heq2
        cases heq2
      | some res =>
        obtain ⟨st1, g2⟩ := res
        rw [hrec1] at heq2
        cases st1 with
        | Solved =>
          simp only [Option.some.injEq, Prod.mk.injEq, true_and] at heq2
          subst heq2
          have hpost := hrec_solved (setTile g tileno num) nextno g2 hg1w1 hg1w2
            hg1len (by rw [hg1len]; exact hn_len) hrec1
          obtain ⟨hp1, hp2, hp3, hp4, hp5, hp6⟩ := hpost
          refine ⟨by rw [hp1, hg1w1], by rw [hp2, hg1w2], by rw [hp3, hg1len],
            fun hc => hp4 (hcons1 hc), fun hb => hp5 (hbound1 hb), ?_⟩
          intro hnzb
          apply hp6
          intro p hp hplen
          rw [hg1len] at hplen
          rcases Nat.lt_trichotomy p tileno with hpt | hpt | hpt
          · rw [hval_ne p (by omega)]
            exact hnzb p hpt hplen
          · subst hpt
            rw [hvt]
            omega
          · rw [hval_ne p (by omega)]
            exact hmin p hpt hp
        | UnSolved =>
          have hrest := hrec_restore _ _ _ _ hrec1
          obtain ⟨hq1, hq2, hq3, hq4⟩ := hrest
          have hg2tiles : g2.tiles = (g0.tiles.set tileno num).set nextno 0 := by
            have h5 := hq4 rfl
            rw [h5, hg1tiles]
          have hcollapse2 : ∀ num',
              (setTile g2 tileno num').tiles = g0.tiles.set tileno num' := by
            intro num'
            show g2.tiles.set tileno num' = g0.tiles.set tileno num'
            rw [hg2tiles, List.set_comm _ _ _ (show tileno ≠ nextno by omega),
              List.set_set, List.set_comm _ _ _ (show nextno ≠ tileno by omega)]
            apply set_zero_of_getD_zero
            rw [getD_set_ne _ _ _ _ (show tileno ≠ nextno by omega)]
            exact hn0
          have hnums2 : ∀ num' ∈ rest, 1 ≤ num' ∧ num' ≤ g0.row_width ∧
              ∀ q, q < g0.tiles.length →
                sameUnit g0.row_width g0.cell_width tileno q → val g0 q ≠ num' :=
            fun num' hmem => hnums num' (List.mem_cons_of_mem _ hmem)
          exact ih g2 (by rw [hq1, hg1w1]) (by rw [hq2, hg1w2]) hcollapse2
            hnums2 h heq2

theorem solve_rec_solved : ∀ (fuel : Nat) (g : SudokuGrid) (t : Nat) (h : SudokuGrid),
    g.tiles.length = g.cell_width ^ 4 → g.row_width = g.cell_width ^ 2 →
    t < g.tiles.length →
    solve_rec fuel g t = some (.Solved, h) →
    h.cell_width = g.cell_width ∧ h.row_width = g.row_width ∧
    h.tiles.length = g.tiles.length ∧
    (Consistent g → Consistent h) ∧
    ((∀ v ∈ g.tiles, v ≤ g.row_width) → ∀ v ∈ h.tiles, v ≤ h.row_width) ∧
    ((∀ p, p < t → p < g.tiles.length → val g p ≠ 0) →
      ∀ p, p < h.tiles.length → val h p ≠ 0) := by
  intro fuel
  induction fuel with
  | zero =>
    intro g t h _ _ _ heq
    simp [solve_rec] at heq
  | succ fuel ih =>
    intro g t h hlen hrw ht heq
    have heq2 : tryNums (solve_rec fuel) g t (next_tile g t)
        ((List.range' 1 g.row_width).filter (fun d => test_bit (possible g t) d)) =
        some (.Solved, h) := heq
    apply tryNums_solved (solve_rec fuel) g t (next_tile g t) ht
      (fun hn => next_tile_none g t hn)
      (fun n hn => next_tile_some g t n hn)
      (fun g1 n st h1 hr => solve_rec_restore fuel g1 n st h1 hr)
      ?_ _ g rfl rfl (fun num => rfl) ?_ h heq2
    · intro g1 n h1 hcw hrww hlen1 hn1 hr
      apply ih g1 n h1 ?_ ?_ hn1 hr
      · rw [hlen1, hcw]
        exact hlen
      · rw [hrww, hcw]
        exact hrw
    · intro num hmem
      rw [List.mem_filter] at hmem
      obtain ⟨hmemr, htest⟩ := hmem
      rw [List.mem_range'_1] at hmemr
      refine ⟨hmemr.1, by omega, ?_⟩
      exact possible_excludes g t num hlen hrw ht htest

/-! Counting: a duplicate-free list of `w` values drawn from `1..=w` contains each
digit exactly once. -/

theorem mul_add_div_eq (w a c : Nat) (hw : 0 < w) (hc : c < w) :
    (a * w + c) / w = a := by
  have h7 : a * w + c = c + w * a := by ring
  rw [h7, Nat.add_mul_div_left _ _ hw, Nat.div_eq_of_lt hc]
  omega

theorem mul_add_mod_eq (w a c : Nat) (hc : c < w) : (a * w + c) % w = c := by
  have h7 : a * w + c = c + w * a := by ring
  rw [h7, Nat.add_mul_mod_self_left, Nat.mod_eq_of_lt hc]

theorem index_inj (w a b c d : Nat) (hw : 0 < w) (hc : c < w) (hd : d < w)
    (h : a * w + c = b * w + d) : a = b ∧ c = d := by
  have h1 : (a * w + c) / w = a := mul_add_div_eq w a c hw hc
  have h2 : (b * w + d) / w = b := mul_add_div_eq w b d hw hd
  have hab : a = b := by rw [← h1, ← h2, h]
  subst hab
  exact ⟨rfl, by omega⟩

theorem count_units (L : List Nat) (w : Nat) (hL : L.length = w)
    (hnodup : L.Nodup) (hsub : ∀ v ∈ L, 1 ≤ v ∧ v ≤ w) :
    ∀ d, 1 ≤ d → d ≤ w → L.count d = 1 := by
  intro d h1 h2
  have hsubF : L.toFinset ⊆ Finset.Icc 1 w := by
    intro v hv
    rw [List.mem_toFinset] at hv
    rw [Finset.mem_Icc]
    exact hsub v hv
  have hcard : (Finset.Icc 1 w).card ≤ L.toFinset.card := by
    rw [List.toFinset_card_of_nodup hnodup, hL, Nat.card_Icc]
    omega
  have hfs : L.toFinset = Finset.Icc 1 w :=
    Finset.eq_of_subset_of_card_le hsubF hcard
  have hd : d ∈ L := by
    rw [← List.mem_toFinset, hfs, Finset.mem_Icc]
    exact ⟨h1, h2⟩
  exact List.count_eq_one_of_mem hnodup hd

theorem nodup_val_map (g : SudokuGrid) (n : Nat) (pos : Nat → Nat)
    (hcons : Consistent g)
    (hinj : ∀ i j, i < n → j < n → i < j → pos i ≠ pos j)
    (hlt : ∀ i, i < n → pos i < g.tiles.length)
    (hunit : ∀ i j, i < n → j < n →
      sameUnit g.row_width g.cell_width (pos i) (pos j))
    (hnz : ∀ p, p < g.tiles.length → val g p ≠ 0) :
    ((List.range n).map (fun i => val g (pos i))).Nodup := by
  have h1 : List.Pairwise (fun a b => val g (pos a) ≠ val g (pos b))
      (List.range n) := by
    apply List.Pairwise.imp_of_mem ?_ (List.pairwise_lt_range n)
    intro a b ha hb hab
    have ha2 : a < n := List.mem_range.mp ha
    have hb2 : b < n := List.mem_range.mp hb
    apply hcons (pos a) (hlt a ha2) (pos b) (hlt b hb2)
    exact ⟨hinj a b ha2 hb2 hab, hunit a b ha2 hb2,
      hnz _ (hlt a ha2), hnz _ (hlt b hb2)⟩
  exact List.pairwise_map.mpr h1

theorem flatMap_range_eq_map_range {α : Type} (k : Nat) (hk : 0 < k)
    (f : Nat → Nat → α) : ∀ (n : Nat),
    (List.range n).flatMap (fun i => (List.range k).map (fun j => f i j)) =
      (List.range (n * k)).map (fun m => f (m / k) (m % k)) := by
  intro n
  induction n with
  | zero => simp
  | succ n ihn =>
    rw [List.range_succ, List.flatMap_append, ihn]
    have h1 : (n + 1) * k = n * k + k := by ring
    rw [h1, List.range_add, List.map_append]
    congr 1
    · simp only [List.flatMap_cons, List.flatMap_nil, List.append_nil]
      rw [List.map_map]
      apply List.map_congr_left
      intro j hj
      have hj2 : j < k := List.mem_range.mp hj
      show f n j = f ((n * k + j) / k) ((n * k + j) % k)
      rw [mul_add_div_eq k n j hk hj2, mul_add_mod_eq k n j hj2]

/-- A conflict-free, fully bounded grid with no empty cell satisfies the claim C1
postcondition. -/
theorem solvedProps_of (g : SudokuGrid)
    (hlen : g.tiles.length = g.cell_width ^ 4)
    (hrw : g.row_width = g.cell_width ^ 2)
    (hcons : Consistent g)
    (hbound : ∀ v ∈ g.tiles, v ≤ g.row_width)
    (hnz : ∀ p, p < g.tiles.length → val g p ≠ 0) :
    SolvedProps g := by
  refine ⟨?_, hnz⟩
  intro u hu d h1 h2
  have hw_pos : 0 < g.row_width := by omega
  have hcw : 0 < g.cell_width := by
    rcases Nat.eq_zero_or_pos g.cell_width with h | h
    · rw [h] at hrw
      simp at hrw
      omega
    · exact h
  have hsq : g.tiles.length = g.row_width * g.row_width := by
    rw [hlen, hrw]
    ring
  have hww : g.cell_width * g.cell_width = g.row_width := by
    rw [hrw]
    ring
  have hval_bounds : ∀ p, p < g.tiles.length →
      1 ≤ val g p ∧ val g p ≤ g.row_width := by
    intro p hp
    have hmem : val g p ∈ g.tiles := by
      rw [val, List.getD_eq_getElem _ _ hp]
      exact List.getElem_mem _
    exact ⟨by have := hnz p hp; omega, hbound _ hmem⟩
  have hrow_pos_lt : ∀ i, i < g.row_width →
      u * g.row_width + i < g.tiles.length := by
    intro i hi
    have hx : u * g.row_width + g.row_width ≤ g.row_width * g.row_width := by
      calc u * g.row_width + g.row_width = (u + 1) * g.row_width := by ring
      _ ≤ g.row_width * g.row_width := Nat.mul_le_mul_right _ (by omega)
    omega
  have hcol_pos_lt : ∀ i, i < g.row_width →
      i * g.row_width + u < g.tiles.length := by
    intro i hi
    have hx : i * g.row_width + g.row_width ≤ g.row_width * g.row_width := by
      calc i * g.row_width + g.row_width = (i + 1) * g.row_width := by ring
      _ ≤ g.row_width * g.row_width := Nat.mul_le_mul_right _ (by omega)
    omega
  refine ⟨?_, ?_, ?_⟩
  · refine count_units _ g.row_width (by simp [rowList]) ?_ ?_ d h1 h2
    · apply nodup_val_map g g.row_width (fun j => u * g.row_width + j) hcons
      · intro i j hi hj hij
        omega
      · intro i hi
        exact hrow_pos_lt i hi
      · intro i j hi hj
        exact Or.inl (by
          rw [mul_add_div_eq _ _ _ hw_pos hi, mul_add_div_eq _ _ _ hw_pos hj])
      · exact hnz
    · intro v hv
      obtain ⟨j, hj, rfl⟩ := List.mem_map.mp hv
      exact hval_bounds _ (hrow_pos_lt j (List.mem_range.mp hj))
  · refine count_units _ g.row_width (by simp [colList]) ?_ ?_ d h1 h2
    · apply nodup_val_map g g.row_width (fun i => i * g.row_width + u) hcons
      · intro i j hi hj hij heq
        obtain ⟨hij2, -⟩ := index_inj g.row_width i j u u hw_pos hu hu heq
        omega
      · intro i hi
        exact hcol_pos_lt i hi
      · intro i j hi hj
        exact Or.inr (Or.inl (by
          rw [mul_add_mod_eq _ _ _ hu, mul_add_mod_eq _ _ _ hu]))
      · exact hnz
    · intro v hv
      obtain ⟨i, hi, rfl⟩ := List.mem_map.mp hv
      exact hval_bounds _ (hcol_pos_lt i (List.mem_range.mp hi))
  · have hbox_eq : boxList g u = (List.range (g.cell_width * g.cell_width)).map
        (fun m => val g
          (((u / g.cell_width) * g.cell_width + m / g.cell_width) * g.row_width +
            ((u % g.cell_width) * g.cell_width + m % g.cell_width))) := by
      unfold boxList
      exact flatMap_range_eq_map_range g.cell_width hcw _ g.cell_width
    rw [hbox_eq, hww]
    have hdivlt : ∀ m, m < g.row_width → m / g.cell_width < g.cell_width := by
      intro m hm
      apply (Nat.div_lt_iff_lt_mul hcw).mpr
      omega
    have hrowidx : ∀ m, m < g.row_width →
        (u / g.cell_width) * g.cell_width + m / g.cell_width < g.row_width := by
      intro m hm
      have h3 := hdivlt m hm
      have hbr : u / g.cell_width < g.cell_width := hdivlt u hu
      have h4 : (u / g.cell_width) * g.cell_width + g.cell_width ≤
          g.cell_width * g.cell_width := by
        calc (u / g.cell_width) * g.cell_width + g.cell_width
            = (u / g.cell_width + 1) * g.cell_width := by ring
        _ ≤ g.cell_width * g.cell_width := Nat.mul_le_mul_right _ (by omega)
      omega
    have hcolidx : ∀ m, m < g.row_width →
        (u % g.cell_width) * g.cell_width + m % g.cell_width < g.row_width := by
      intro m hm
      have h3 : m % g.cell_width < g.cell_width := Nat.mod_lt _ hcw
      have hbc : u % g.cell_width < g.cell_width := Nat.mod_lt _ hcw
      have h4 : (u % g.cell_width) * g.cell_width + g.cell_width ≤
          g.cell_width * g.cell_width := by
        calc (u % g.cell_width) * g.cell_width + g.cell_width
            = (u % g.cell_width + 1) * g.cell_width := by ring
        _ ≤ g.cell_width * g.cell_width := Nat.mul_le_mul_right _ (by omega)
      omega
    have hposlt : ∀ m, m < g.row_width →
        ((u / g.cell_width) * g.cell_width + m / g.cell_width) * g.row_width +
          ((u % g.cell_width) * g.cell_width + m % g.cell_width) <
            g.tiles.length := by
      intro m hm
      have h5 := hrowidx m hm
      have h6 := hcolidx m hm
      have h8 : (((u / g.cell_width) * g.cell_width + m / g.cell_width) + 1) *
          g.row_width ≤ g.row_width * g.row_width := Nat.mul_le_mul_right _ (by omega)
      have h9 : (((u / g.cell_width) * g.cell_width + m / g.cell_width) + 1) *
          g.row_width = ((u / g.cell_width) * g.cell_width + m / g.cell_width) *
            g.row_width + g.row_width := by ring
      omega
    refine count_units _ g.row_width (by simp) ?_ ?_ d h1 h2
    · apply nodup_val_map g g.row_width
        (fun m => ((u / g.cell_width) * g.cell_width + m / g.cell_width) *
          g.row_width + ((u % g.cell_width) * g.cell_width + m % g.cell_width))
        hcons
      · intro i j hi hj hij heq
        obtain ⟨hR, hC⟩ := index_inj g.row_width _ _ _ _ hw_pos
          (hcolidx i hi) (hcolidx j hj) heq
        have hdiv : i / g.cell_width = j / g.cell_width := by omega
        have hmod : i % g.cell_width = j % g.cell_width := by omega
        have hi2 := Nat.div_add_mod i g.cell_width
        rw [hdiv, hmod] at hi2
        have hj2 := Nat.div_add_mod j g.cell_width
        omega
      · intro m hm
        exact hposlt m hm
      · intro i j hi hj
        refine Or.inr (Or.inr ⟨?_, ?_⟩)
        · rw [mul_add_div_eq _ _ _ hw_pos (hcolidx i hi),
            mul_add_div_eq _ _ _ hw_pos (hcolidx j hj),
            mul_add_div_eq _ _ _ hcw (hdivlt i hi),
            mul_add_div_eq _ _ _ hcw (hdivlt j hj)]
        · rw [mul_add_mod_eq _ _ _ (hcolidx i hi),
            mul_add_mod_eq _ _ _ (hcolidx j hj),
            mul_add_div_eq _ _ _ hcw (Nat.mod_lt i hcw),
            mul_add_div_eq _ _ _ hcw (Nat.mod_lt j hcw)]
      · exact hnz
    · intro v hv
      obtain ⟨m, hm, rfl⟩ := List.mem_map.mp hv
      exact hval_bounds _ (hposlt m (List.mem_range.mp hm))

/-! Totality of `solve`, shared by the termination-style claims. -/

theorem solve_total (g : SudokuGrid) :
    ∃ st h, solve g = (st, h) ∧
      (∀ fz, g.tiles.find? (fun t => t == 0) = some fz →
        solve_rec (g.tiles.length + 1) g fz = some (st, h)) := by
  cases hf : g.tiles.find? (fun t => t == 0) with
  | none =>
    refine ⟨.Solved, g, ?_, ?_⟩
    · unfold solve
      rw [hf]
    · intro fz hsome
      simp at hsome
  | some fz =>
    have hfz : fz = 0 := by simpa using List.find?_some hf
    subst hfz
    have hpos : 0 < g.tiles.length :=
      List.length_pos.mpr (List.ne_nil_of_mem (List.mem_of_find?_eq_some hf))
    have hsome := solve_rec_isSome g.tiles.length g 0 (by omega)
    obtain ⟨res, hres⟩ := Option.isSome_iff_exists.mp hsome
    obtain ⟨st, h⟩ := res
    refine ⟨st, h, ?_, ?_⟩
    · unfold solve
      rw [hf]
      show (solve_rec (g.tiles.length + 1) g 0).getD (SolveState.UnSolved, g) = (st, h)
      rw [hres]
      rfl
    · intro fz2 hsome2
      injection hsome2 with h2
      rw [← h2]
      exact hres

theorem val_le (g : SudokuGrid) (hbound : ∀ v ∈ g.tiles, v ≤ g.row_width)
    (p : Nat) : val g p ≤ g.row_width := by
  rcases Nat.lt_or_ge p g.tiles.length with h | h
  · refine hbound _ ?_
    rw [val, List.getD_eq_getElem _ _ h]
    exact List.getElem_mem _
  · rw [val, List.getD_eq_getElem?_getD, List.getElem?_eq_none (by simpa using h)]
    simp

theorem unit_values_le (g : SudokuGrid) (t : Nat)
    (hbound : ∀ v ∈ g.tiles, v ≤ g.row_width) :
    ∀ v ∈ unit_values g t, v ≤ g.row_width := by
  intro v hv
  simp only [unit_values, rowList, colList, boxList, List.mem_append,
    List.mem_map, List.mem_flatMap, List.mem_range] at hv
  rcases hv with (⟨j, _, rfl⟩ | ⟨j, _, rfl⟩) | ⟨i, _, j, _, rfl⟩
  · exact val_le g hbound _
  · exact val_le g hbound _
  · exact val_le g hbound _

theorem fourth_root_pow (k : Nat) : fourth_root (k ^ 4) = k := by
  unfold fourth_root
  rw [show k ^ 4 = (k ^ 2) ^ 2 by ring, Nat.sqrt_eq', Nat.sqrt_eq']

/-- Claim C4 is wrong about the code: applied to the same tuple (0, 1) on a board of
row_width 4, the coordinate read accesses flat position 0 * 4 + 1 = 1 while the
coordinate write accesses flat position 1 * 4 + 0 = 4, because `IndexMut`
destructures the tuple as `(col, row)`.  The two accessors are not identical. -/
theorem claim4_bug_eval :
    index_pos gridEmpty16 (0, 1) = 1 ∧
    index_mut_pos gridEmpty16 (0, 1) = 4 ∧ (1 : Nat) ≠ 4 :=
  ⟨rfl, rfl, by decide⟩

/-- Claim C10: constructing a grid from the empty sequence succeeds with
cell_width = 0, row_width = 0 and no tiles, and `solve` on that grid reports
Solved (there is no tile equal to 0, so the full-grid branch is taken). -/
theorem claim10_theorem :
    try_from [] = .ok ⟨[], 0, 0⟩ ∧
    solve ⟨[], 0, 0⟩ = (.Solved, ⟨[], 0, 0⟩) :=
  ⟨rfl, rfl⟩

/-- Claim C2 is wrong about the code: on the validly constructed grid `gridStuck`
(tiles [1,0,3,4,0,2,0,…,0]) `solve` reports UnSolved, yet the resulting grid is NOT
the original: the non-zero clue 1 at index 0 has been erased to 0, because `solve`
passes the found VALUE 0 (rather than the first zero's position) to `solve_rec`,
which then treats the occupied tile 0 as the cell to search and resets it. -/
theorem claim2_bug_eval :
    Valid gridStuck ∧
    solve gridStuck =
      (.UnSolved, ⟨[0, 0, 3, 4, 0, 2, 0, 0, 0, 0, 0, 0, 0, 0, 0, 0], 2, 4⟩) ∧
    ([0, 0, 3, 4, 0, 2, 0, 0, 0, 0, 0, 0, 0, 0, 0, 0] ≠ gridStuck.tiles) := by
  refine ⟨by decide, rfl, by decide⟩

/-- Claim C3 is wrong about the code: on `gridClueAtZero` (clue 2 at index 0, first
zero tile at index 1) the claim says `solve_rec` is invoked at index 1, leaving the
clue at index 0 intact; the code instead calls `solve_rec` at index 0 (the found
value 0 cast to an index), overwrites the clue, and returns Solved with tile 0
changed from 2 to 1. -/
theorem claim3_bug_eval :
    val gridClueAtZero 0 = 2 ∧
    solve gridClueAtZero =
      (.Solved, ⟨[1, 2, 3, 4, 3, 4, 1, 2, 2, 1, 4, 3, 4, 3, 2, 1], 2, 4⟩) ∧
    val ⟨[1, 2, 3, 4, 3, 4, 1, 2, 2, 1, 4, 3, 4, 3, 2, 1], 2, 4⟩ 0 ≠ 2 := by
  refine ⟨rfl, rfl, by decide⟩

/-- Claim C1 as stated is false: `gridAllOnes` is validly constructed (every value
is in range), `solve` reports Solved on it (it has no empty cell, so it is returned
unchanged), yet row 0 of the result contains the digit 1 four times, not once. -/
theorem claim1_counterexample :
    Valid gridAllOnes ∧
    solve gridAllOnes = (.Solved, gridAllOnes) ∧
    (rowList gridAllOnes 0).count 1 ≠ 1 := by
  refine ⟨by decide, rfl, by decide⟩

/-- Claim C8 as stated is false: `gridContradictory` has 81 in-range tiles and rows
0 and 1 share the non-zero digit 1 in column 2, yet `solve` reports Solved (filling
the single empty cell with 3), not Unsolved. -/
theorem claim8_counterexample :
    gridContradictory.tiles.length = 81 ∧
    (∀ v ∈ gridContradictory.tiles, v ≤ 9) ∧
    val gridContradictory (0 * 9 + 2) = 1 ∧
    val gridContradictory (1 * 9 + 2) = 1 ∧
    (0 : Nat) ≠ 1 ∧
    (solve gridContradictory).1 = .Solved := by
  refine ⟨rfl, by decide, rfl, rfl, by decide, rfl⟩

/-- Claim C1 (amended): for every validly constructed grid whose initial non-zero
entries are pairwise distinct within every row, column and box (conflict-free
clues), if `solve` reports Solved then every row, column and box of the resulting
grid contains each digit 1..=row_width exactly once and no cell holds 0. -/
theorem claim1_theorem (g : SudokuGrid) (hv : Valid g) (hc : Consistent g)
    (h : SudokuGrid) (heq : solve g = (.Solved, h)) : SolvedProps h := by
  obtain ⟨hlen, hrw, hbound⟩ := hv
  unfold solve at heq
  cases hf : g.tiles.find? (fun t => t == 0) with
  | none =>
    rw [hf] at heq
    have heq2 : ((SolveState.Solved, g) : SolveState × SudokuGrid) =
        (SolveState.Solved, h) := heq
    simp only [Prod.mk.injEq, true_and] at heq2
    subst heq2
    have hnz : ∀ p, p < g.tiles.length → val g p ≠ 0 := by
      rw [List.find?_eq_none] at hf
      intro p hp hzero
      have hmem : val g p ∈ g.tiles := by
        rw [val, List.getD_eq_getElem _ _ hp]
        exact List.getElem_mem _
      have h2 := hf _ hmem
      exact h2 (by rw [hzero]; rfl)
    exact solvedProps_of g hlen hrw hc hbound hnz
  | some fz =>
    rw [hf] at heq
    have hfz : fz = 0 := by simpa using List.find?_some hf
    subst hfz
    have hpos : 0 < g.tiles.length :=
      List.length_pos.mpr (List.ne_nil_of_mem (List.mem_of_find?_eq_some hf))
    have hsome := solve_rec_isSome g.tiles.length g 0 (by omega)
    obtain ⟨res, hres⟩ := Option.isSome_iff_exists.mp hsome
    obtain ⟨st, h2⟩ := res
    have heq2 : (solve_rec (g.tiles.length + 1) g 0).getD (SolveState.UnSolved, g) =
        (SolveState.Solved, h) := heq
    rw [hres] at heq2
    have heq3 : ((st, h2) : SolveState × SudokuGrid) = (SolveState.Solved, h) := heq2
    simp only [Prod.mk.injEq] at heq3
    obtain ⟨hst, hh⟩ := heq3
    subst hst
    subst hh
    have hpost := solve_rec_solved (g.tiles.length + 1) g 0 h2 hlen hrw (by omega) hres
    obtain ⟨hq1, hq2, hq3, hq4, hq5, hq6⟩ := hpost
    apply solvedProps_of h2 ?_ ?_ (hq4 hc) (hq5 hbound) ?_
    · rw [hq3, hq1]
      exact hlen
    · rw [hq2, hq1]
      exact hrw
    · exact hq6 (fun p hp _ => absurd hp (by omega))

/-- Witness for claim C1: the empty 4×4 grid is validly constructed and conflict
free, solve reports Solved on it, and the theorem yields the full postcondition
for the resulting grid. -/
theorem claim1_witness :
    Valid gridEmpty16 ∧ Consistent gridEmpty16 ∧
      solve gridEmpty16 = (.Solved, gridEmpty16Solved) ∧
      SolvedProps gridEmpty16Solved :=
  ⟨by decide, by decide, rfl,
    claim1_theorem gridEmpty16 (by decide) (by decide) gridEmpty16Solved rfl⟩

/-- Claim C7: for every grid, `solve` terminates and returns a result; in
particular a fuel of `tiles.length + 1` suffices for the recursion backing it
(the embedding's fuel never runs out), so the search always runs to completion
with either Solved or UnSolved. -/
theorem claim7_theorem (g : SudokuGrid) :
    ∃ st h, solve g = (st, h) ∧ (st = .Solved ∨ st = .UnSolved) ∧
      (∀ fz, g.tiles.find? (fun t => t == 0) = some fz →
        solve_rec (g.tiles.length + 1) g fz = some (st, h)) := by
  obtain ⟨st, h, h1, h2⟩ := solve_total g
  exact ⟨st, h, h1, by cases st <;> simp, h2⟩

/-- Witness for claim C7 at the empty 4×4 grid: the recursion with fuel
`tiles.length + 1 = 17` converges to exactly the pair `solve` returns. -/
theorem claim7_witness :
    solve gridEmpty16 = (.Solved, gridEmpty16Solved) ∧
      solve_rec (gridEmpty16.tiles.length + 1) gridEmpty16 0 =
        some (.Solved, gridEmpty16Solved) := by
  obtain ⟨st, h, h1, _, h3⟩ := claim7_theorem gridEmpty16
  have h4 := h3 0 (by rfl)
  have h5 : (st, h) = ((.Solved : SolveState), gridEmpty16Solved) := by
    rw [← h1]
    rfl
  rw [h5] at h4
  exact ⟨by rw [h1, h5], h4⟩

/-- Claim C8 (amended): an 81-cell grid with all values in range in which two rows
hold the same non-zero digit in the same column still runs to completion — the
recursion converges with the given fuel and `solve` reports a result — but that
result is Solved or Unsolved, not necessarily Unsolved. -/
theorem claim8_theorem (g : SudokuGrid)
    (hlen : g.tiles.length = 81) (hbound : ∀ v ∈ g.tiles, v ≤ 9)
    (r1 r2 c : Nat) (hr1 : r1 < 9) (hr2 : r2 < 9) (hc : c < 9) (hne : r1 ≠ r2)
    (hdup : val g (r1 * 9 + c) = val g (r2 * 9 + c))
    (hnz : val g (r1 * 9 + c) ≠ 0) :
    ∃ st h, solve g = (st, h) ∧ (st = .Solved ∨ st = .UnSolved) ∧
      (∀ fz, g.tiles.find? (fun t => t == 0) = some fz →
        solve_rec (g.tiles.length + 1) g fz = some (st, h)) := by
  obtain ⟨st, h, h1, h2⟩ := solve_total g
  exact ⟨st, h, h1, by cases st <;> simp, h2⟩

/-- Witness for claim C8 at the contradictory grid: all hypotheses hold and the
run completes (in this case with Solved). -/
theorem claim8_witness :
    solve gridContradictory = (.Solved, gridContradictorySolved) ∧
      solve_rec (gridContradictory.tiles.length + 1) gridContradictory 0 =
        some (.Solved, gridContradictorySolved) := by
  obtain ⟨st, h, h1, _, h3⟩ := claim8_theorem gridContradictory rfl (by decide)
    0 1 2 (by decide) (by decide) (by decide) (by decide) rfl (by decide)
  have h4 := h3 0 (by rfl)
  have h5 : (st, h) = ((.Solved : SolveState), gridContradictorySolved) := by
    rw [← h1]
    rfl
  rw [h5] at h4
  exact ⟨by rw [h1, h5], h4⟩

/-- Claim C6: for every validly constructed grid and in-range coordinates,
`iter_cell row col` yields exactly the cell_width² values of the contiguous
cell_width×cell_width sub-square whose box index is
`(row / cell_width) * cell_width + col / cell_width`, in row-major sub-order. -/
theorem claim6_theorem (g : SudokuGrid) (hv : Valid g) (row col : Nat)
    (hrow : row < g.row_width) (hcol : col < g.row_width) :
    iter_cell g row col =
      boxList g ((row / g.cell_width) * g.cell_width + col / g.cell_width) :=
  iter_cell_eq g row col hv.1 hv.2.1 hrow hcol

/-- Witness for claim C6 on a concrete 4×4 grid at coordinate (1, 2). -/
theorem claim6_witness :
    Valid ⟨[1, 2, 3, 4, 5, 6, 7, 8, 9, 10, 11, 12, 13, 14, 15, 16], 2, 16⟩ = False ∧
      Valid gridStuck ∧ (1 : Nat) < gridStuck.row_width ∧ (2 : Nat) < gridStuck.row_width ∧
      iter_cell gridStuck 1 2 = boxList gridStuck
        ((1 / gridStuck.cell_width) * gridStuck.cell_width + 2 / gridStuck.cell_width) :=
  ⟨by decide, by decide, by decide, by decide,
    claim6_theorem gridStuck (by decide) 1 2 (by decide) (by decide)⟩

/-- Claim C5 (amended): for every validly constructed grid with `row_width < 32`
(so that every stored value fits the u32 mask), every in-range empty cell and
every digit, the digit lies in `1..=row_width` with its bit set in the complement
of the exclusion mask if and only if it lies in `1..=row_width` and does not
appear among the values of that cell's row, column and box. -/
theorem claim5_theorem (g : SudokuGrid) (hv : Valid g) (hw : g.row_width < 32)
    (t : Nat) (ht : t < g.tiles.length) (hempty : val g t = 0) (d : Nat) :
    (1 ≤ d ∧ d ≤ g.row_width ∧ test_bit (possible g t) d = true) ↔
      (1 ≤ d ∧ d ≤ g.row_width ∧ d ∉ unit_values g t) := by
  obtain ⟨hlen, hrw, hbound⟩ := hv
  obtain ⟨hcw, hw_pos⟩ := width_pos g hlen hrw (by omega)
  have hsq : g.tiles.length = g.row_width * g.row_width := by
    rw [hlen, hrw]
    ring
  have htdiv : t / g.row_width < g.row_width := by
    apply (Nat.div_lt_iff_lt_mul hw_pos).mpr
    omega
  have htmod : t % g.row_width < g.row_width := Nat.mod_lt _ hw_pos
  have hr_eq : iter_row g (t / g.row_width) = rowList g (t / g.row_width) := by
    apply iter_row_eq
    have hx : (t / g.row_width + 1) * g.row_width ≤ g.row_width * g.row_width :=
      Nat.mul_le_mul_right _ (by omega)
    have hy : (t / g.row_width + 1) * g.row_width =
        (t / g.row_width) * g.row_width + g.row_width := by ring
    omega
  have hc_eq : iter_col g (t % g.row_width) = colList g (t % g.row_width) :=
    iter_col_eq g _ hsq (by omega)
  have hb_eq : iter_cell g (t / g.row_width) (t % g.row_width) =
      boxList g (box_of g t) := by
    unfold box_of
    exact iter_cell_eq g _ _ hlen hrw htdiv htmod
  have hcore : d ≤ g.row_width →
      (test_bit (possible g t) d = true ↔ d ∉ unit_values g t) := by
    intro hdle
    rw [test_bit_possible, hr_eq, hc_eq, hb_eq]
    have hlist : unit_values g t = rowList g (t / g.row_width) ++
        (colList g (t % g.row_width) ++ boxList g (box_of g t)) := by
      unfold unit_values
      rw [List.append_assoc]
    rw [← hlist, Bool.not_eq_true', List.any_eq_false]
    constructor
    · intro hall hdmem
      have h2 := hall d hdmem
      simp at h2
    · intro hdnotmem v hv
      have hvle : v ≤ g.row_width := unit_values_le g t hbound v hv
      have hv32 : v % 32 = v := Nat.mod_eq_of_lt (by omega)
      have hd32 : d % 32 = d := Nat.mod_eq_of_lt (by omega)
      rw [hv32, hd32]
      intro hbeq
      have hvd : v = d := by simpa using hbeq
      subst hvd
      exact hdnotmem hv
  constructor
  · rintro ⟨ha, hb, hc⟩
    exact ⟨ha, hb, (hcore hb).mp hc⟩
  · rintro ⟨ha, hb, hc⟩
    exact ⟨ha, hb, (hcore hb).mpr hc⟩

/-- Witness for claim C5 on the empty 4×4 grid, cell 0, digit 1. -/
theorem claim5_witness :
    (1 ≤ 1 ∧ 1 ≤ gridEmpty16.row_width ∧
        test_bit (possible gridEmpty16 0) 1 = true) ↔
      (1 ≤ 1 ∧ 1 ≤ gridEmpty16.row_width ∧ 1 ∉ unit_values gridEmpty16 0) :=
  claim5_theorem gridEmpty16 (by decide) (by decide) 0 (by decide) (by decide) 1

/-- Claim C5 as stated is false for wide boards: on the validly constructed grid
`gridWide` (row_width 36 ≥ 32) with the single value 33 in the row of the empty
cell 0, the digit 1 does not appear in any unit of cell 0, yet bit 1 of the
complement of the exclusion mask is clear, because the u32 shift for the value 33
wraps to bit 33 % 32 = 1. -/
theorem claim5_counterexample :
    Valid gridWide ∧ val gridWide 0 = 0 ∧
      (1 ≤ 1 ∧ 1 ≤ gridWide.row_width ∧ 1 ∉ unit_values gridWide 0) ∧
      test_bit (possible gridWide 0) 1 = false := by
  have hvals : ∀ p, val gridWide p = 0 ∨ val gridWide p = 33 := by
    intro p
    by_cases hp : p = 1
    · subst hp
      right
      show ((List.replicate 1296 0).set 1 33).getD 1 0 = 33
      exact getD_set_self _ _ _ (by simp)
    · left
      show ((List.replicate 1296 0).set 1 33).getD p 0 = 0
      rw [getD_set_ne _ _ _ _ (Ne.symm hp)]
      rcases Nat.lt_or_ge p 1296 with h | h
      · rw [List.getD_eq_getElem _ _ (by simpa using h)]
        simp only [List.getElem_replicate]
      · rw [List.getD_eq_getElem?_getD, List.getElem?_eq_none (by simpa using h)]
        rfl
  have hval1 : val gridWide 1 = 33 := by
    show ((List.replicate 1296 0).set 1 33).getD 1 0 = 33
    exact getD_set_self _ _ _ (by simp)
  have hval0 : val gridWide 0 = 0 := by
    show ((List.replicate 1296 0).set 1 33).getD 0 0 = 0
    rw [getD_set_ne _ _ _ _ (by omega)]
    rw [List.getD_eq_getElem _ _ (by simp)]
    simp only [List.getElem_replicate]
  have hone : ∀ p, val gridWide p ≠ 1 := by
    intro p
    rcases hvals p with h | h <;> omega
  refine ⟨⟨?_, by decide, ?_⟩, hval0, ⟨by decide, by decide, ?_⟩, ?_⟩
  · show ((List.replicate 1296 0).set 1 33).length = 6 ^ 4
    rw [List.length_set, List.length_replicate]
    decide
  · intro v hv
    show v ≤ 36
    rcases List.mem_or_eq_of_mem_set hv with h | h
    · have := List.eq_of_mem_replicate h
      omega
    · omega
  · intro hmem
    simp only [unit_values, rowList, colList, boxList, List.mem_append,
      List.mem_map, List.mem_flatMap, List.mem_range] at hmem
    rcases hmem with (⟨j, _, hj⟩ | ⟨j, _, hj⟩) | ⟨i, _, j, _, hj⟩ <;> exact hone _ hj
  · rw [test_bit_possible, Bool.not_eq_false', List.any_eq_true]
    refine ⟨33, ?_, by decide⟩
    apply List.mem_append_left
    have hr_eq : iter_row gridWide (0 / gridWide.row_width) =
        rowList gridWide (0 / gridWide.row_width) := by
      apply iter_row_eq
      show 0 / gridWide.row_width * gridWide.row_width + gridWide.row_width ≤
        ((List.replicate 1296 0).set 1 33).length
      rw [List.length_set, List.length_replicate]
      show 0 / 36 * 36 + 36 ≤ 1296
      omega
    rw [hr_eq]
    show 33 ∈ rowList gridWide 0
    unfold rowList
    apply List.mem_map.mpr
    refine ⟨1, List.mem_range.mpr (by decide), ?_⟩
    show val gridWide (0 * gridWide.row_width + 1) = 33
    have h0 : 0 * gridWide.row_width + 1 = 1 := by omega
    rw [h0]
    exact hval1

/-- Claim C9: construction from a sequence of N values fails with NonSquare
exactly when N is not a perfect fourth power; otherwise it fails with
DigitOutOfRange exactly when some value exceeds row_width = (N^(1/4))², and
otherwise succeeds storing the tiles with cell_width = N^(1/4) and
row_width = cell_width².  The NonSquare check takes precedence. -/
theorem claim9_theorem (l : List Nat) :
    (try_from l = .error .NonSquare ↔ ¬ ∃ k, l.length = k ^ 4) ∧
    (∀ k, l.length = k ^ 4 →
      ((try_from l = .error .DigitOutOfRange ↔ ∃ v ∈ l, k ^ 2 < v) ∧
        ((∀ v ∈ l, v ≤ k ^ 2) → try_from l = .ok ⟨l, k, k ^ 2⟩))) := by
  constructor
  · by_cases hex : ∃ k, l.length = k ^ 4
    · obtain ⟨k, hk⟩ := hex
      have hfr : fourth_root l.length = k := by rw [hk, fourth_root_pow]
      have hcond : ¬ (fourth_root l.length ^ 4 ≠ l.length) := by
        rw [hfr, hk]
        exact fun hcc => hcc rfl
      constructor
      · intro heq
        exfalso
        have heq2 : (if fourth_root l.length ^ 4 ≠ l.length then
            (Except.error SudokuParseError.NonSquare :
              Except SudokuParseError SudokuGrid)
          else if ¬ (l.all fun n => n ≤ fourth_root l.length ^ 2) then
            Except.error SudokuParseError.DigitOutOfRange
          else Except.ok ⟨l, fourth_root l.length, fourth_root l.length ^ 2⟩) =
            Except.error SudokuParseError.NonSquare := heq
        rw [if_neg hcond] at heq2
        split at heq2
        · cases heq2
        · cases heq2
      · intro hnex
        exact absurd ⟨k, hk⟩ hnex
    · have hcond : fourth_root l.length ^ 4 ≠ l.length := fun hcc =>
        hex ⟨fourth_root l.length, hcc.symm⟩
      constructor
      · intro _
        exact hex
      · intro _
        show (if fourth_root l.length ^ 4 ≠ l.length then
            (Except.error SudokuParseError.NonSquare :
              Except SudokuParseError SudokuGrid)
          else if ¬ (l.all fun n => n ≤ fourth_root l.length ^ 2) then
            Except.error SudokuParseError.DigitOutOfRange
          else Except.ok ⟨l, fourth_root l.length, fourth_root l.length ^ 2⟩) =
            Except.error SudokuParseError.NonSquare
        rw [if_pos hcond]
  · intro k hk
    have hfr : fourth_root l.length = k := by rw [hk, fourth_root_pow]
    have hcond : ¬ (fourth_root l.length ^ 4 ≠ l.length) := by
      rw [hfr, hk]
      exact fun hcc => hcc rfl
    have hred : try_from l = if ¬ (l.all fun n => n ≤ k ^ 2) then
        Except.error SudokuParseError.DigitOutOfRange
      else Except.ok ⟨l, k, k ^ 2⟩ := by
      show (if fourth_root l.length ^ 4 ≠ l.length then
          (Except.error SudokuParseError.NonSquare :
            Except SudokuParseError SudokuGrid)
        else if ¬ (l.all fun n => n ≤ fourth_root l.length ^ 2) then
          Except.error SudokuParseError.DigitOutOfRange
        else Except.ok ⟨l, fourth_root l.length, fourth_root l.length ^ 2⟩) = _
      rw [if_neg hcond, hfr]
    rw [hred]
    by_cases hall : l.all (fun n => n ≤ k ^ 2) = true
    · rw [if_neg (by simp [hall])]
      refine ⟨⟨fun heq => absurd heq (by simp), ?_⟩, fun _ => rfl⟩
      rintro ⟨v, hv, hlt⟩
      rw [List.all_eq_true] at hall
      have h2 := hall v hv
      simp at h2
      omega
    · rw [if_pos (by simpa using hall)]
      refine ⟨⟨fun _ => ?_, fun _ => rfl⟩, fun hforall => ?_⟩
      · simp only [List.all_eq_true] at hall
        push_neg at hall
        obtain ⟨v, hv, hnle⟩ := hall
        refine ⟨v, hv, ?_⟩
        simp at hnle
        omega
      · exfalso
        apply hall
        rw [List.all_eq_true]
        intro v hv
        simpa using hforall v hv

/-- Witness for claim C9: 80 values fail with NonSquare, and 81 values containing
a 10 fail with DigitOutOfRange. -/
theorem claim9_witness :
    try_from (List.replicate 80 0) = .error .NonSquare ∧
      try_from (List.replicate 80 0 ++ [10]) = .error .DigitOutOfRange := by
  constructor
  · apply (claim9_theorem (List.replicate 80 0)).1.mpr
    rintro ⟨k, hk⟩
    simp only [List.length_replicate] at hk
    rcases Nat.lt_or_ge k 4 with h | h
    · interval_cases k <;> norm_num at hk
    · have h2 : 4 ^ 4 ≤ k ^ 4 := Nat.pow_le_pow_left h 4
      norm_num at h2
      omega
  · have h81 : (List.replicate 80 (0 : Nat) ++ [10]).length = 3 ^ 4 := by simp
    apply ((claim9_theorem _).2 3 h81).1.mpr
    refine ⟨10, ?_, by norm_num⟩
    simp

end Sudoku
